import Mathlib

/-!
PlanIt server: authentication and task store; PlanIt client: the weekly board.

A shallow embedding of `src/PlanIt/server/index.js` and of the board functions of
`src/PlanIt/client/app.js`.

* JSON values are the inductive type `Json`; JavaScript numbers are modelled as exact
  rationals (finite values only, no `NaN` or `Infinity`), `undefined` is `Option.none`.
  A request body with a number literal outside the double range (`1e400`, which `JSON.parse`
  reads as `Infinity` and `JSON.stringify` writes back as `null`) has no counterpart in the
  model: every statement about "any body" is about bodies whose numbers are finite.
* The persisted record store (`data.json`) is the typed record `Database`; `readDatabase`
  and `writeDatabase` become explicit state passing: every handler returns the store it
  leaves behind.
* The library calls of the source (`crypto`, `Buffer`, `JSON`, `String.prototype.toLowerCase`)
  are the fields of a `Runtime`; whatever a theorem needs to know about them is an explicit
  hypothesis of that theorem.  `Date.now()`, `crypto.randomUUID()`, `crypto.randomBytes` and
  `new Date().toISOString()` are read from an `Env`.
* The client board `state.board` is a function from the seven days to task lists; the
  functions that mutate it return the board they leave behind.
-/

namespace PlanIt

/-! ## JSON values and JavaScript coercions -/

/-- JSON values as produced by `JSON.parse`. -/
inductive Json where
  | null : Json
  | bool (b : Bool) : Json
  | num (q : ℚ) : Json
  | str (s : String) : Json
  | arr (xs : List Json) : Json
  | obj (kvs : List (String × Json)) : Json

mutual
/-- Decision procedure for equality of JSON values. -/
def Json.decEq : (a b : Json) → Decidable (a = b)
  | .null, .null => isTrue rfl
  | .bool a, .bool b => decidable_of_iff (a = b) ⟨fun h => h ▸ rfl, fun h => Json.bool.inj h⟩
  | .num a, .num b => decidable_of_iff (a = b) ⟨fun h => h ▸ rfl, fun h => Json.num.inj h⟩
  | .str a, .str b => decidable_of_iff (a = b) ⟨fun h => h ▸ rfl, fun h => Json.str.inj h⟩
  | .arr a, .arr b =>
    match Json.decEqList a b with
    | isTrue h => isTrue (h ▸ rfl)
    | isFalse h => isFalse (fun e => h (Json.arr.inj e))
  | .obj a, .obj b =>
    match Json.decEqFields a b with
    | isTrue h => isTrue (h ▸ rfl)
    | isFalse h => isFalse (fun e => h (Json.obj.inj e))
  | .null, .bool _ => isFalse (fun h => Json.noConfusion h)
  | .null, .num _ => isFalse (fun h => Json.noConfusion h)
  | .null, .str _ => isFalse (fun h => Json.noConfusion h)
  | .null, .arr _ => isFalse (fun h => Json.noConfusion h)
  | .null, .obj _ => isFalse (fun h => Json.noConfusion h)
  | .bool _, .null => isFalse (fun h => Json.noConfusion h)
  | .bool _, .num _ => isFalse (fun h => Json.noConfusion h)
  | .bool _, .str _ => isFalse (fun h => Json.noConfusion h)
  | .bool _, .arr _ => isFalse (fun h => Json.noConfusion h)
  | .bool _, .obj _ => isFalse (fun h => Json.noConfusion h)
  | .num _, .null => isFalse (fun h => Json.noConfusion h)
  | .num _, .bool _ => isFalse (fun h => Json.noConfusion h)
  | .num _, .str _ => isFalse (fun h => Json.noConfusion h)
  | .num _, .arr _ => isFalse (fun h => Json.noConfusion h)
  | .num _, .obj _ => isFalse (fun h => Json.noConfusion h)
  | .str _, .null => isFalse (fun h => Json.noConfusion h)
  | .str _, .bool _ => isFalse (fun h => Json.noConfusion h)
  | .str _, .num _ => isFalse (fun h => Json.noConfusion h)
  | .str _, .arr _ => isFalse (fun h => Json.noConfusion h)
  | .str _, .obj _ => isFalse (fun h => Json.noConfusion h)
  | .arr _, .null => isFalse (fun h => Json.noConfusion h)
  | .arr _, .bool _ => isFalse (fun h => Json.noConfusion h)
  | .arr _, .num _ => isFalse (fun h => Json.noConfusion h)
  | .arr _, .str _ => isFalse (fun h => Json.noConfusion h)
  | .arr _, .obj _ => isFalse (fun h => Json.noConfusion h)
  | .obj _, .null => isFalse (fun h => Json.noConfusion h)
  | .obj _, .bool _ => isFalse (fun h => Json.noConfusion h)
  | .obj _, .num _ => isFalse (fun h => Json.noConfusion h)
  | .obj _, .str _ => isFalse (fun h => Json.noConfusion h)
  | .obj _, .arr _ => isFalse (fun h => Json.noConfusion h)
/-- Decision procedure for equality of lists of JSON values. -/
def Json.decEqList : (a b : List Json) → Decidable (a = b)
  | [], [] => isTrue rfl
  | [], _ :: _ => isFalse (fun h => List.noConfusion h)
  | _ :: _, [] => isFalse (fun h => List.noConfusion h)
  | x :: xs, y :: ys =>
    match Json.decEq x y, Json.decEqList xs ys with
    | isTrue h, isTrue hs => isTrue (h ▸ hs ▸ rfl)
    | isFalse h, _ => isFalse (fun e => h (List.cons.inj e).1)
    | _, isFalse hs => isFalse (fun e => hs (List.cons.inj e).2)
/-- Decision procedure for equality of property lists. -/
def Json.decEqFields : (a b : List (String × Json)) → Decidable (a = b)
  | [], [] => isTrue rfl
  | [], _ :: _ => isFalse (fun h => List.noConfusion h)
  | _ :: _, [] => isFalse (fun h => List.noConfusion h)
  | (k, x) :: xs, (l, y) :: ys =>
    match String.decEq k l, Json.decEq x y, Json.decEqFields xs ys with
    | isTrue hk, isTrue h, isTrue hs => isTrue (hk ▸ h ▸ hs ▸ rfl)
    | isFalse hk, _, _ => isFalse (fun e => hk (Prod.mk.inj (List.cons.inj e).1).1)
    | _, isFalse h, _ => isFalse (fun e => h (Prod.mk.inj (List.cons.inj e).1).2)
    | _, _, isFalse hs => isFalse (fun e => hs (List.cons.inj e).2)
end

instance : DecidableEq Json := Json.decEq

/-- A JavaScript object: its own properties in insertion order. -/
abbrev Obj := List (String × Json)

/-- Property read `value.key` on a non-null value; `none` is `undefined`.
The keys read by the server (`email`, `title`, `day`, `exp`, ...) exist on objects only. -/
def Json.field : Json → String → Option Json
  | .obj kvs, k => kvs.lookup k
  | _, _ => none

/-- JavaScript truthiness of a JSON value. -/
def jsTruthy : Json → Bool
  | .null => false
  | .bool b => b
  | .num q => decide (q ≠ 0)
  | .str s => decide (s ≠ "")
  | .arr _ => true
  | .obj _ => true

/-- Truthiness of a possibly `undefined` value. -/
def truthy : Option Json → Bool
  | none => false
  | some j => jsTruthy j

/-- Property definition `o[k] = v`: an existing key keeps its place, a new key is appended. -/
def Obj.set : Obj → String → Json → Obj
  | [], k, v => [(k, v)]
  | (k', v') :: rest, k, v => if k' = k then (k', v) :: rest else (k', v') :: Obj.set rest k v

/-! ## Strings -/

/-- Pieces of a character list between occurrences of `sep`. -/
def splitChars (sep : Char) : List Char → List (List Char)
  | [] => [[]]
  | c :: cs =>
    if c = sep then [] :: splitChars sep cs
    else
      match splitChars sep cs with
      | [] => [[c]]
      | seg :: rest => (c :: seg) :: rest

/-- The call `s.split(sep)` for a one-character separator. -/
def jsSplit (s : String) (sep : Char) : List String :=
  (splitChars sep s.data).map String.mk

/-- The call `s.startsWith(p)`. -/
def jsStartsWith (s p : String) : Bool := p.data.isPrefixOf s.data

/-- The call `s.slice(n)` for `n ≥ 0`. -/
def jsSlice (s : String) (n : Nat) : String := ⟨s.data.drop n⟩

/-- Code points removed by `String.prototype.trim` (WhiteSpace and LineTerminator). -/
def isJsWhitespace (c : Char) : Bool :=
  let n := c.toNat
  n == 9 || n == 10 || n == 11 || n == 12 || n == 13 || n == 32 || n == 160 || n == 5760
    || (8192 ≤ n && n ≤ 8202) || n == 8232 || n == 8233 || n == 8239 || n == 8287
    || n == 12288 || n == 65279

/-- The call `s.trim()`. -/
def jsTrim (s : String) : String :=
  ⟨((s.data.dropWhile isJsWhitespace).reverse.dropWhile isJsWhitespace).reverse⟩

/-! ## The runtime -/

/-- The library functions the server calls. -/
structure Runtime where
  /-- The constant `JWT_SECRET`. -/
  JWT_SECRET : String
  /-- Models `crypto.createHmac('sha256', key).update(content).digest('base64url')`. -/
  hmacSha256 : String → String → String
  /-- Models `Buffer.from(value).toString('base64url')`. -/
  toBase64Url : String → String
  /-- Models `Buffer.from(value, 'base64url').toString('utf-8')`. -/
  fromBase64Url : String → String
  /-- Models `JSON.stringify`. -/
  stringify : Json → String
  /-- Models `JSON.parse`; `none` when it throws. -/
  parse : String → Option Json
  /-- Models `Buffer.from(value)`: the UTF-8 bytes of a string. -/
  utf8 : String → List Nat
  /-- Models `ToNumber` on strings, arrays and objects; `none` is `NaN`. -/
  toNumber : Json → Option ℚ
  /-- Models `crypto.pbkdf2Sync(password, salt, 310000, 32, 'sha256')`. -/
  pbkdf2Sync : String → String → List Nat
  /-- Models `buffer.toString('hex')`. -/
  toHex : List Nat → String
  /-- Models `Buffer.from(value, 'hex')`. -/
  fromHex : String → List Nat
  /-- Models `String.prototype.toLowerCase`. -/
  toLowerCase : String → String

/-- Coercion `ToNumber` of a JSON value; `none` is `NaN`. -/
def jsToNumber (R : Runtime) : Json → Option ℚ
  | .num q => some q
  | .null => some 0
  | .bool b => some (if b then 1 else 0)
  | j => R.toNumber j

/-! ## The record store -/

/-- A stored user record. -/
structure User where
  id : String
  email : String
  name : Option String
  salt : String
  passwordHash : String
  createdAt : String
  deriving DecidableEq

/-- A stored task record. -/
structure Task where
  id : String
  userId : String
  title : String
  description : String
  day : ℚ
  position : ℚ
  createdAt : String
  deriving DecidableEq

/-- The content of `data.json`. -/
structure Database where
  users : List User
  tasks : List Task
  deriving DecidableEq

/-- The user record as the object built in `handleRegister`. -/
def User.toObj (u : User) : Obj :=
  [("id", .str u.id), ("email", .str u.email),
   ("name", match u.name with
            | some n => .str n
            | none => .null),
   ("salt", .str u.salt), ("passwordHash", .str u.passwordHash),
   ("createdAt", .str u.createdAt)]

/-- The task record as the object built in `handleCreateTask`. -/
def Task.toJson (t : Task) : Json :=
  .obj [("id", .str t.id), ("userId", .str t.userId), ("title", .str t.title),
    ("description", .str t.description), ("day", .num t.day), ("position", .num t.position),
    ("createdAt", .str t.createdAt)]

/-! ## Passwords -/

/-- Models `crypto.timingSafeEqual`: throws (`none`) when the byte lengths differ. -/
def timingSafeEqual (a b : List Nat) : Option Bool :=
  if a.length = b.length then some (decide (a = b)) else none

/-- Source function `hashPassword(password, salt)`, returning `(salt, hash)`. -/
def hashPassword (R : Runtime) (password salt : String) : String × String :=
  let hash := R.toHex (R.pbkdf2Sync password salt)
  (salt, hash)

/-- Source function `verifyPassword`; `none` when `timingSafeEqual` throws. -/
def verifyPassword (R : Runtime) (password : String) (user : User) : Option Bool :=
  let hash := R.toHex (R.pbkdf2Sync password user.salt)
  timingSafeEqual (R.fromHex hash) (R.fromHex user.passwordHash)

/-- Source function `sanitizeUser`: the rest object of `const { passwordHash, salt, ...rest }`. -/
def sanitizeUser (user : Obj) : Obj :=
  user.filter (fun kv => kv.1 != "passwordHash" && kv.1 != "salt")

/-! ## Tokens -/

/-- Source function `sign`. -/
def sign (R : Runtime) (content : String) : String :=
  R.hmacSha256 R.JWT_SECRET content

/-- Source function `base64UrlEncode`. -/
def base64UrlEncode (R : Runtime) (value : String) : String :=
  R.toBase64Url value

/-- Source function `generateToken`; `now` is the reading of `Date.now()`. -/
def generateToken (R : Runtime) (now : Nat) (payload : Obj) : String :=
  let header := base64UrlEncode R (R.stringify (.obj [("alg", .str "HS256"), ("typ", .str "JWT")]))
  let exp : Nat := now / 1000 + 60 * 60 * 24 * 30
  let body := Obj.set payload "exp" (.num exp)
  let encodedPayload := base64UrlEncode R (R.stringify (.obj body))
  let signature := sign R (header ++ "." ++ encodedPayload)
  header ++ "." ++ encodedPayload ++ "." ++ signature

/-- Source function `timingSafeCompare`. -/
def timingSafeCompare (R : Runtime) (a b : String) : Bool :=
  let bufA := R.utf8 a
  let bufB := R.utf8 b
  if bufA.length ≠ bufB.length then false
  else timingSafeEqual bufA bufB == some true

/-- The test `payload.exp && Date.now() >= payload.exp * 1000` of `verifyToken`. -/
def tokenExpired (R : Runtime) (now : Nat) (exp : Option Json) : Bool :=
  match exp with
  | none => false
  | some e =>
    jsTruthy e &&
      (match jsToNumber R e with
       | some q => decide (q * 1000 ≤ (now : ℚ))
       | none => false)

/-- Source function `verifyToken`; `none` is the returned `null`. -/
def verifyToken (R : Runtime) (now : Nat) (token : String) : Option Json :=
  match jsSplit token '.' with
  | [headerB64, payloadB64, signature] =>
    let expectedSignature := sign R (headerB64 ++ "." ++ payloadB64)
    if !timingSafeCompare R signature expectedSignature then none
    else
      let payloadJson := R.fromBase64Url payloadB64
      match R.parse payloadJson with
      | none => none
      | some .null => none
      | some payload => if tokenExpired R now (payload.field "exp") then none else some payload
  | _ => none

/-! ## Requests and replies -/

/-- What a handler did with the response object. -/
inductive Reply where
  /-- Answer `respondJson(res, status, body)` with a body. -/
  | json (status : Nat) (body : Json) : Reply
  /-- Answer `respondJson(res, status, null)`: status line only. -/
  | empty (status : Nat) : Reply
  /-- The handler returned without answering. -/
  | silent : Reply
  /-- An exception left the handler; `handleApiRequest` answers 500. -/
  | threw : Reply
  deriving DecidableEq

/-- The store a request leaves behind together with its reply. -/
structure Outcome where
  reply : Reply
  db : Database
  deriving DecidableEq

/-- The parts of an incoming request the handlers read. -/
structure Request where
  /-- Header `req.headers['authorization']`. -/
  authorization : Option String
  /-- The request body as received. -/
  data : String
  deriving DecidableEq

/-- Readings of the clock and of the random sources during one request. -/
structure Env where
  /-- Reading of `Date.now()` in milliseconds. -/
  now : Nat
  /-- Result of `crypto.randomUUID()`. -/
  uuid : String
  /-- Result of `crypto.randomBytes(16).toString('hex')`. -/
  salt : String
  /-- Result of `new Date().toISOString()`. -/
  isoNow : String
  deriving DecidableEq

instance : DecidableEq (Except Reply User)
  | .ok a, .ok b => decidable_of_iff (a = b) ⟨fun h => h ▸ rfl, fun h => Except.ok.inj h⟩
  | .error a, .error b => decidable_of_iff (a = b) ⟨fun h => h ▸ rfl, fun h => Except.error.inj h⟩
  | .ok _, .error _ => isFalse (fun h => Except.noConfusion h)
  | .error _, .ok _ => isFalse (fun h => Except.noConfusion h)

instance : DecidableEq (Except Reply Json)
  | .ok a, .ok b => decidable_of_iff (a = b) ⟨fun h => h ▸ rfl, fun h => Except.ok.inj h⟩
  | .error a, .error b => decidable_of_iff (a = b) ⟨fun h => h ▸ rfl, fun h => Except.error.inj h⟩
  | .ok _, .error _ => isFalse (fun h => Except.noConfusion h)
  | .error _, .ok _ => isFalse (fun h => Except.noConfusion h)

/-- The body `{ error: message }`. -/
def errorBody (message : String) : Json := .obj [("error", .str message)]

/-- Source function `parseJsonBody`: `error r` when it answered `r` itself and resolved `null`. -/
def parseJsonBody (R : Runtime) (data : String) : Except Reply Json :=
  if data.length > 1000000 then .error (.json 413 (errorBody "Requête trop volumineuse."))
  else if data = "" then .ok (.obj [])
  else
    match R.parse data with
    | some parsed => .ok parsed
    | none => .error (.json 400 (errorBody "JSON invalide."))

/-- The expression `value?.trim()`: `none` when the call throws (the value is neither nullish
nor a string), `some none` when it is `undefined`. -/
def optionalTrim : Option Json → Option (Option String)
  | none => some none
  | some .null => some none
  | some (.str s) => some (some (jsTrim s))
  | some _ => none

/-! ## Authentication -/

/-- The comparison `s === value` for a string `s`. -/
def strictEqualsString (s : String) : Option Json → Bool
  | some (.str v) => decide (s = v)
  | _ => false

/-- Source function `authenticateRequest`: `error r` when it answered `r` and returned `null`. -/
def authenticateRequest (R : Runtime) (now : Nat) (db : Database)
    (authHeader : Option String) : Except Reply User :=
  match authHeader with
  | none => .error (.json 401 (errorBody "Authentification requise."))
  | some header =>
    if header = "" || !jsStartsWith header "Bearer " then
      .error (.json 401 (errorBody "Authentification requise."))
    else
      let token := jsSlice header 7
      match verifyToken R now token with
      | none => .error (.json 401 (errorBody "Session invalide ou expirée."))
      | some payload =>
        if !jsTruthy payload then .error (.json 401 (errorBody "Session invalide ou expirée."))
        else
          match db.users.find? (fun item => strictEqualsString item.id (payload.field "id")) with
          | none => .error (.json 401 (errorBody "Compte introuvable."))
          | some user => .ok user

/-- Source function `handleCurrentUser`. -/
def handleCurrentUser (R : Runtime) (env : Env) (db : Database) (req : Request) : Outcome :=
  match authenticateRequest R env.now db req.authorization with
  | .error r => ⟨r, db⟩
  | .ok user => ⟨.json 200 (.obj [("user", .obj (sanitizeUser user.toObj))]), db⟩

/-- Source function `handleRegister`. -/
def handleRegister (R : Runtime) (env : Env) (db : Database) (req : Request) : Outcome :=
  match parseJsonBody R req.data with
  | .error r => ⟨r, db⟩
  | .ok body =>
    if !jsTruthy body then ⟨.silent, db⟩
    else
      let email := body.field "email"
      let password := body.field "password"
      let name := body.field "name"
      if !truthy email || !truthy password then
        ⟨.json 400 (errorBody "Email et mot de passe requis."), db⟩
      else
        match email with
        | some (.str email) =>
          let existing := db.users.find?
            (fun user => R.toLowerCase user.email == R.toLowerCase email)
          if existing.isSome then
            ⟨.json 400 (errorBody "Un compte avec cet e-mail existe déjà."), db⟩
          else
            match password with
            | some (.str password) =>
              let (salt, hash) := hashPassword R password env.salt
              match optionalTrim name with
              | none => ⟨.threw, db⟩
              | some trimmed =>
                let user : User :=
                  { id := env.uuid
                    email := R.toLowerCase email
                    name := match trimmed with
                            | some n => if n ≠ "" then some n else none
                            | none => none
                    salt := salt
                    passwordHash := hash
                    createdAt := env.isoNow }
                let db' : Database := { db with users := db.users ++ [user] }
                let token := generateToken R env.now
                  [("id", .str user.id), ("email", .str user.email)]
                ⟨.json 201 (.obj [("token", .str token),
                  ("user", .obj (sanitizeUser user.toObj))]), db'⟩
            | _ => ⟨.threw, db⟩
        | _ => ⟨.threw, db⟩

/-! ## Tasks -/

/-- The comparator `(a.day - b.day) || (a.position - b.position)` of `handleGetTasks`. -/
def compareTasks (a b : Task) : ℚ :=
  if a.day - b.day ≠ 0 then a.day - b.day else a.position - b.position

/-- The order `Array.prototype.sort` realises for `compareTasks`: `a` may precede `b`. -/
def taskBefore (a b : Task) : Prop := compareTasks a b ≤ 0

instance : DecidableRel taskBefore := fun a b => by
  unfold taskBefore
  infer_instance

/-- Source function `handleGetTasks`; the stable `Array.prototype.sort` is an insertion sort. -/
def handleGetTasks (R : Runtime) (env : Env) (db : Database) (req : Request) : Outcome :=
  match authenticateRequest R env.now db req.authorization with
  | .error r => ⟨r, db⟩
  | .ok user =>
    let tasks := (db.tasks.filter (fun task => task.userId = user.id)).insertionSort taskBefore
    ⟨.json 200 (.obj [("tasks", .arr (tasks.map Task.toJson))]), db⟩

/-- Source function `handleCreateTask`. -/
def handleCreateTask (R : Runtime) (env : Env) (db : Database) (req : Request) : Outcome :=
  match authenticateRequest R env.now db req.authorization with
  | .error r => ⟨r, db⟩
  | .ok user =>
    match parseJsonBody R req.data with
    | .error r => ⟨r, db⟩
    | .ok body =>
      if !jsTruthy body then ⟨.silent, db⟩
      else
        let title := body.field "title"
        let description := body.field "description"
        let day := body.field "day"
        match title with
        | some (.str title) =>
          if title = "" then ⟨.json 400 (errorBody "Le titre est requis."), db⟩
          else
            match day with
            | some (.num day) =>
              if day < 0 ∨ day > 6 then ⟨.json 400 (errorBody "Le jour est invalide."), db⟩
              else
                let userTasks := db.tasks.filter
                  (fun task => task.userId = user.id ∧ task.day = day)
                let position := userTasks.length
                match optionalTrim description with
                | none => ⟨.threw, db⟩
                | some trimmed =>
                  let task : Task :=
                    { id := env.uuid
                      userId := user.id
                      title := jsTrim title
                      description := match trimmed with
                                     | some d => if d ≠ "" then d else ""
                                     | none => ""
                      day := day
                      position := position
                      createdAt := env.isoNow }
                  ⟨.json 201 (.obj [("task", task.toJson)]),
                    { db with tasks := db.tasks ++ [task] }⟩
            | _ => ⟨.json 400 (errorBody "Le jour est invalide."), db⟩
        | _ => ⟨.json 400 (errorBody "Le titre est requis."), db⟩

/-- Replace the first element satisfying `p` by its image under `f` (mutation of the object
returned by `Array.prototype.find`). -/
def updateFirst (p : Task → Bool) (f : Task → Task) : List Task → List Task
  | [] => []
  | t :: ts => if p t then f t :: ts else t :: updateFirst p f ts

/-- The four guarded assignments of `handleUpdateTask`. -/
def applyTaskUpdate (body : Json) (task : Task) : Task :=
  let task :=
    match body.field "title" with
    | some (.str title) => if title ≠ "" then { task with title := jsTrim title } else task
    | _ => task
  let task :=
    match body.field "description" with
    | some (.str description) => { task with description := jsTrim description }
    | _ => task
  let task :=
    match body.field "day" with
    | some (.num day) => if day ≥ 0 ∧ day ≤ 6 then { task with day := day } else task
    | _ => task
  let task :=
    match body.field "position" with
    | some (.num position) => if position ≥ 0 then { task with position := position } else task
    | _ => task
  task

/-- Source function `handleUpdateTask`. -/
def handleUpdateTask (R : Runtime) (env : Env) (db : Database) (req : Request)
    (taskId : String) : Outcome :=
  match authenticateRequest R env.now db req.authorization with
  | .error r => ⟨r, db⟩
  | .ok user =>
    match parseJsonBody R req.data with
    | .error r => ⟨r, db⟩
    | .ok body =>
      if !jsTruthy body then ⟨.silent, db⟩
      else
        match db.tasks.find? (fun item => item.id = taskId ∧ item.userId = user.id) with
        | none => ⟨.json 404 (errorBody "Tâche introuvable."), db⟩
        | some task =>
          let updated := applyTaskUpdate body task
          let tasks := updateFirst (fun item => item.id = taskId ∧ item.userId = user.id)
            (applyTaskUpdate body) db.tasks
          ⟨.json 200 (.obj [("task", updated.toJson)]), { db with tasks := tasks }⟩

/-- Source function `handleDeleteTask`. -/
def handleDeleteTask (R : Runtime) (env : Env) (db : Database) (req : Request)
    (taskId : String) : Outcome :=
  match authenticateRequest R env.now db req.authorization with
  | .error r => ⟨r, db⟩
  | .ok user =>
    match db.tasks.findIdx? (fun item => item.id = taskId ∧ item.userId = user.id) with
    | none => ⟨.json 404 (errorBody "Tâche introuvable."), db⟩
    | some index => ⟨.empty 204, { db with tasks := db.tasks.eraseIdx index }⟩

/-- The two guarded assignments of the loop body of `handleReorderTasks`. -/
def applyReorderUpdate (update : Json) (current : Task) : Task :=
  let current :=
    match update.field "day" with
    | some (.num day) => if day ≥ 0 ∧ day ≤ 6 then { current with day := day } else current
    | _ => current
  let current :=
    match update.field "position" with
    | some (.num position) =>
      if position ≥ 0 then { current with position := position } else current
    | _ => current
  current

/-- Replace the last element satisfying `p` by its image under `f`: mutation of the object
that `userTaskMap.get` returns, the map keeping the last task stored under a key. -/
def updateLast (p : Task → Bool) (f : Task → Task) : List Task → List Task
  | [] => []
  | t :: ts => if ts.any p then t :: updateLast p f ts else if p t then f t :: ts else t :: ts

/-- Test for the JSON value `null`, the one value on which a property read throws. -/
def Json.isNull : Json → Bool
  | .null => true
  | _ => false

/-- The loop `for (const update of tasks)` of `handleReorderTasks` on the task list of the
store; `none` when `update.id` throws.  The keys of `userTaskMap` are the ids of the tasks of
the user, and the updates change neither ids nor owners, so that looking a task up in the map
is looking it up in the current list. -/
def reorderLoop (userId : String) : List Json → List Task → Option (List Task)
  | [], tasks => some tasks
  | update :: rest, tasks =>
    if update.isNull then none
    else
      reorderLoop userId rest
        (updateLast
          (fun task => task.userId = userId ∧ strictEqualsString task.id (update.field "id"))
          (applyReorderUpdate update) tasks)

/-- Source function `handleReorderTasks`. -/
def handleReorderTasks (R : Runtime) (env : Env) (db : Database) (req : Request) : Outcome :=
  match authenticateRequest R env.now db req.authorization with
  | .error r => ⟨r, db⟩
  | .ok user =>
    match parseJsonBody R req.data with
    | .error r => ⟨r, db⟩
    | .ok body =>
      if !jsTruthy body then ⟨.silent, db⟩
      else
        match body.field "tasks" with
        | some (.arr tasks) =>
          match reorderLoop user.id tasks db.tasks with
          | none => ⟨.threw, db⟩
          | some updated =>
            ⟨.json 200 (.obj [("success", .bool true)]), { db with tasks := updated }⟩
        | _ => ⟨.json 400 (errorBody "Format de données invalide."), db⟩

/-! ## The client board (`client/app.js`) -/

/-- The client board `state.board`: one task list for each day of `DAYS`. -/
abbrev Board := Fin 7 → List Task

/-- The values of the constant `DAYS`. -/
def DAYS : List (Fin 7) := [0, 1, 2, 3, 4, 5, 6]

/-- Source function `findTaskDay`. -/
def findTaskDay (board : Board) (taskId : String) : Option (Fin 7) :=
  DAYS.find? (fun day => (board day).any (fun task => task.id = taskId))

/-- The loop `tasks.forEach((task, index) => task.position = index)`, counting from `start`. -/
def renumberFrom (start : Nat) : List Task → List Task
  | [] => []
  | task :: tasks => { task with position := (start : ℚ) } :: renumberFrom (start + 1) tasks

/-- Source function `normalizeBoard`. -/
def normalizeBoard (board : Board) : Board :=
  fun day => renumberFrom 0 (board day)

/-- The effect of `renderBoard` on the board: every list is sorted in place by position. -/
def renderBoard (board : Board) : Board :=
  fun day => (board day).insertionSort (fun a b => a.position - b.position ≤ 0)

/-- Source function `getAllTasks`. -/
def getAllTasks (board : Board) : List Task :=
  DAYS.flatMap (fun day => board day)

/-- The request body that `persistReorder` builds. -/
def persistReorderPayload (board : Board) : Json :=
  .obj [("tasks", .arr ((getAllTasks board).map (fun task =>
    .obj [("id", .str task.id), ("day", .num task.day), ("position", .num task.position)])))]

/-- A task with its position blanked: what is compared when positions are renumbered. -/
def Task.withoutPosition (t : Task) : Task := { t with position := 0 }

/-- Source function `moveTask`, up to the call of `persistReorder`. -/
def moveTask (board : Board) (taskId : String) (targetDay : Fin 7) (targetIndex : Int) :
    Board :=
  match findTaskDay board taskId with
  | none => board
  | some sourceDay =>
    let sourceList := board sourceDay
    match sourceList.findIdx? (fun task => task.id = taskId) with
    | none => board
    | some currentIndex =>
      match sourceList[currentIndex]? with
      | none => board
      | some task =>
        let board := Function.update board sourceDay (sourceList.eraseIdx currentIndex)
        let task := { task with day := ((targetDay : ℕ) : ℚ) }
        let destination := board targetDay
        let clampedIndex := (min (max targetIndex 0) (destination.length : Int)).toNat
        let board := Function.update board targetDay
          (destination.take clampedIndex ++ task :: destination.drop clampedIndex)
        renderBoard (normalizeBoard board)

/-! ## Invariants of the store -/

/-- The tasks of one `(userId, day)` bucket, in the order of the store. -/
def bucket (db : Database) (userId : String) (day : ℚ) : List Task :=
  db.tasks.filter (fun task => task.userId = userId ∧ task.day = day)

/-- Invariant I1 for one bucket: its positions are exactly `0..n-1`, none twice. -/
def bucketGapFree (db : Database) (userId : String) (day : ℚ) : Prop :=
  ((bucket db userId day).map Task.position).Perm
    ((List.range (bucket db userId day).length).map (fun i : ℕ => (i : ℚ)))

/-- Range validation of one task: day within 0 and 6, position not negative. -/
def Task.inRange (t : Task) : Prop := 0 ≤ t.day ∧ t.day ≤ 6 ∧ 0 ≤ t.position

/-- Well-formedness of one task as in the data model: non-empty title, integer day within
0 and 6, integer position that is not negative. -/
def Task.wellFormed (t : Task) : Prop :=
  t.title ≠ "" ∧ t.day.den = 1 ∧ 0 ≤ t.day ∧ t.day ≤ 6 ∧ t.position.den = 1 ∧ 0 ≤ t.position

instance (t : Task) : Decidable t.inRange := by
  unfold Task.inRange
  infer_instance

instance (t : Task) : Decidable t.wellFormed := by
  unfold Task.wellFormed
  infer_instance

/-- The day a body or an update carries, when it passes the day test of `handleUpdateTask`
and `handleReorderTasks`. -/
def validDay (update : Json) : Option ℚ :=
  match update.field "day" with
  | some (.num day) => if day ≥ 0 ∧ day ≤ 6 then some day else none
  | _ => none

/-- The position a body or an update carries, when it passes the position test of
`handleUpdateTask` and `handleReorderTasks`. -/
def validPosition (update : Json) : Option ℚ :=
  match update.field "position" with
  | some (.num position) => if position ≥ 0 then some position else none
  | _ => none

/-- The value that `read` finds in the last update of the batch that carries the id and has
such a value. -/
def lastValid (read : Json → Option ℚ) (id : String) (batch : List Json) : Option ℚ :=
  (batch.reverse.filterMap
    (fun update => if strictEqualsString id (update.field "id") then read update else none)).head?

/-- Effect of a whole batch on one task of the user: the updates that carry its id, in order. -/
def applyBatch : List Json → Task → Task
  | [], task => task
  | update :: rest, task =>
    applyBatch rest
      (if strictEqualsString task.id (update.field "id") then applyReorderUpdate update task
       else task)

/-- The task list a batch without `null` leaves: the batch acts on a task of the user that no
later task of the user shares its id with; every other task stays. -/
def reorderedTasks (userId : String) (batch : List Json) : List Task → List Task
  | [] => []
  | task :: rest =>
    (if task.userId = userId ∧ ¬ rest.any (fun x => x.userId = userId ∧ x.id = task.id) = true
      then applyBatch batch task else task) :: reorderedTasks userId batch rest


/-- Invariant I3: no two stored users have e-mails that are equal after lower-casing. -/
def emailsDistinct (R : Runtime) (db : Database) : Prop :=
  db.users.Pairwise (fun a b => R.toLowerCase a.email ≠ R.toLowerCase b.email)

instance (R : Runtime) (db : Database) : Decidable (emailsDistinct R db) := by
  unfold emailsDistinct
  infer_instance

/-- Lexicographic order of tasks by `(day, position)`. -/
def dayPositionLe (a b : Task) : Prop :=
  a.day < b.day ∨ (a.day = b.day ∧ a.position ≤ b.position)

instance : DecidableRel dayPositionLe := fun a b => by
  unfold dayPositionLe
  infer_instance

/-! ## A small executable runtime

`demoRuntime` instantiates every field of `Runtime` with a function that evaluates, so that the
theorems below can be applied to concrete requests.  The codecs are inverse to each other on
the values used; the digest functions are simple keyed stand-ins, not the real SHA-256. -/

/-- Escape of one character: the output never contains a dot. -/
def demoEscapeChar (c : Char) : List Char :=
  if c = '.' then ['_', 'd'] else if c = '_' then ['_', 'u'] else [c]

/-- Escape of a character list. -/
def demoEscape : List Char → List Char
  | [] => []
  | c :: cs => demoEscapeChar c ++ demoEscape cs

/-- Inverse of `demoEscape`. -/
def demoUnescape : List Char → List Char
  | '_' :: 'd' :: cs => '.' :: demoUnescape cs
  | '_' :: 'u' :: cs => '_' :: demoUnescape cs
  | c :: cs => c :: demoUnescape cs
  | [] => []

/-- Keyed stand-in for the HMAC digest: the escaped reversal of key and content. -/
def demoHmac (key content : String) : String :=
  ⟨demoEscape (key.data ++ ':' :: content.data).reverse⟩

mutual
/-- Printer of JSON values in JSON syntax (strings are written without escapes, a number
that is not an integer as a fraction). -/
def demoStringify : Json → String
  | .null => "null"
  | .bool b => if b then "true" else "false"
  | .num q => if q.den = 1 then toString q.num else toString q.num ++ "/" ++ toString q.den
  | .str s => "\"" ++ s ++ "\""
  | .arr xs => "[" ++ demoStringifyList xs ++ "]"
  | .obj kvs => "\x7b" ++ demoStringifyFields kvs ++ "\x7d"
/-- Printer of array elements. -/
def demoStringifyList : List Json → String
  | [] => ""
  | [x] => demoStringify x
  | x :: y :: xs => demoStringify x ++ "," ++ demoStringifyList (y :: xs)
/-- Printer of object properties. -/
def demoStringifyFields : List (String × Json) → String
  | [] => ""
  | [(k, v)] => "\"" ++ k ++ "\":" ++ demoStringify v
  | (k, v) :: kv :: kvs =>
    "\"" ++ k ++ "\":" ++ demoStringify v ++ "," ++ demoStringifyFields (kv :: kvs)
end

/-- The JSON values `demoParse` recognises. -/
def demoUniverse : List Json :=
  [ .obj [("id", .str "u1"), ("email", .str "ann@example.org"), ("exp", .num 2592000)],
    .obj [("id", .str "u1"), ("exp", .num 0)],
    .obj [("exp", .num 2592000)],
    .obj [("title", .str "Buy milk"), ("day", .num 2)],
    .obj [("title", .str "Buy milk"), ("day", .num 2), ("description", .num 5)],
    .obj [("email", .str "Ann@Example.org"), ("password", .str "secret")],
    .obj [("email", .str "bob@example.org"), ("password", .str "secret")],
    .num 0,
    .obj [("title", .str "Buy milk"), ("day", .num 1)],
    .obj [("title", .str " "), ("day", .num (5 / 2))],
    .obj [("day", .num 4)],
    .obj [("tasks", .arr [.obj [("id", .str "t3"), ("day", .num 3), ("position", .num 0)]])],
    .obj [("tasks", .arr [.obj [("id", .str "t1"), ("day", .num 3), ("position", .num 0)]])],
    .obj [("tasks", .arr [.obj [("id", .str "t1"), ("day", .num 3), ("position", .num 0)],
      .null])],
    .obj [("tasks", .arr [.obj [("id", .str "t1"), ("day", .num 4)],
      .obj [("id", .str "t1"), ("day", .num 5), ("position", .num (-1))],
      .obj [("id", .str "t1"), ("position", .num 3)]])],
    .obj [("tasks", .arr [.obj [("id", .str "b"), ("day", .num 1), ("position", .num 0)],
      .obj [("id", .str "a"), ("day", .num 1), ("position", .num 1)]])] ]

/-- Partial inverse of `demoStringify`: the first value of `demoUniverse` printed as `s`. -/
def demoParse (s : String) : Option Json :=
  demoUniverse.find? (fun j => demoStringify j == s)

/-- Lower-case hexadecimal digit of a number below 16. -/
def hexDigit (n : Nat) : Char :=
  if n < 10 then Char.ofNat (48 + n) else Char.ofNat (87 + n)

/-- Value of a hexadecimal digit in either case. -/
def hexValue (c : Char) : Option Nat :=
  let n := c.toNat
  if 48 ≤ n ∧ n ≤ 57 then some (n - 48)
  else if 97 ≤ n ∧ n ≤ 102 then some (n - 87)
  else if 65 ≤ n ∧ n ≤ 70 then some (n - 55)
  else none

/-- Lower-case hexadecimal encoding of a byte list. -/
def hexEncode : List Nat → List Char
  | [] => []
  | b :: bs => hexDigit (b / 16 % 16) :: hexDigit (b % 16) :: hexEncode bs

/-- Hexadecimal decoding as `Buffer.from(s, 'hex')` does it: pairs of digits in either case,
stopping at the first pair that is not hexadecimal; a trailing single digit is dropped. -/
def hexDecode : List Char → List Nat
  | c :: d :: cs =>
    match hexValue c, hexValue d with
    | some hi, some lo => (hi * 16 + lo) :: hexDecode cs
    | _, _ => []
  | _ => []

/-- Stand-in for the key derivation: 32 bytes computed from password and salt. -/
def demoPbkdf2 (password salt : String) : List Nat :=
  let seed := (password.data ++ salt.data).foldl (fun acc c => (acc * 31 + c.toNat) % 251) 7
  (List.range 32).map (fun i => (seed + 171 * (i + 1)) % 256)

/-- Lower-casing of the ASCII letters. -/
def demoLower (c : Char) : Char :=
  if 65 ≤ c.toNat ∧ c.toNat ≤ 90 then Char.ofNat (c.toNat + 32) else c

/-- The executable runtime. -/
def demoRuntime : Runtime where
  JWT_SECRET := "development-secret"
  hmacSha256 := demoHmac
  toBase64Url := fun s => ⟨demoEscape s.data⟩
  fromBase64Url := fun s => ⟨demoUnescape s.data⟩
  stringify := demoStringify
  parse := demoParse
  utf8 := fun s => s.data.map Char.toNat
  toNumber := fun _ => none
  pbkdf2Sync := demoPbkdf2
  toHex := fun bytes => ⟨hexEncode bytes⟩
  fromHex := fun s => hexDecode s.data
  toLowerCase := fun s => ⟨s.data.map demoLower⟩

/-- A stored user of the examples. -/
def demoUser : User :=
  { id := "u1", email := "ann@example.org", name := some "Ann", salt := "aa",
    passwordHash := "d5802bd6812cd7822dd8832ed9842fda8530db8631dc8732dd8833de8934df8a",
    createdAt := "2024-01-01T00:00:00.000Z" }

/-- A second stored user of the examples. -/
def demoOther : User :=
  { id := "u2", email := "cy@example.org", name := none, salt := "bb",
    passwordHash := "00", createdAt := "2024-01-01T00:00:00.000Z" }

/-- The store of the examples: two users; `u1` owns `t1` and `t3`, `u2` owns `t2`. -/
def demoDb : Database :=
  { users := [demoUser, demoOther]
    tasks :=
      [ { id := "t1", userId := "u1", title := "Write", description := "", day := 2,
          position := 0, createdAt := "2024-01-01T00:00:00.000Z" },
        { id := "t2", userId := "u2", title := "Read", description := "", day := 2,
          position := 0, createdAt := "2024-01-01T00:00:00.000Z" },
        { id := "t3", userId := "u1", title := "Walk", description := "", day := 0,
          position := 0, createdAt := "2024-01-01T00:00:00.000Z" } ] }

/-- The claims `handleRegister` issues for `demoUser`. -/
def demoClaims : Obj := [("id", .str "u1"), ("email", .str "ann@example.org")]

/-- The token issued to `demoUser` at time 0. -/
def demoToken : String := generateToken demoRuntime 0 demoClaims

/-- First segment of `demoToken`. -/
def demoHeaderSegment : String :=
  demoRuntime.toBase64Url (demoStringify (.obj [("alg", .str "HS256"), ("typ", .str "JWT")]))

/-- Second segment of `demoToken`. -/
def demoPayloadSegment : String :=
  demoRuntime.toBase64Url (demoStringify
    (.obj [("id", .str "u1"), ("email", .str "ann@example.org"), ("exp", .num 2592000)]))

/-- A correctly signed token whose payload carries `exp = 0`. -/
def demoEpochToken : String :=
  "h." ++ demoRuntime.toBase64Url (demoStringify (.obj [("id", .str "u1"), ("exp", .num 0)]))
    ++ "." ++ sign demoRuntime ("h." ++ demoRuntime.toBase64Url
      (demoStringify (.obj [("id", .str "u1"), ("exp", .num 0)])))

/-- Clock and random readings of the examples. -/
def demoEnv : Env :=
  { now := 5000, uuid := "t9", salt := "aa", isoNow := "2024-01-02T00:00:00.000Z" }

/-- A register request for an e-mail that is stored in another case. -/
def demoRegisterRequest : Request :=
  { authorization := none
    data := demoStringify
      (.obj [("email", .str "Ann@Example.org"), ("password", .str "secret")]) }

/-- Body of a create request with a numeric description. -/
def demoBadCreateBody : Json :=
  .obj [("title", .str "Buy milk"), ("day", .num 2), ("description", .num 5)]

/-- Body of a create request without description. -/
def demoCreateBody : Json := .obj [("title", .str "Buy milk"), ("day", .num 2)]

/-- A store in which `u1` has two tasks on day 1, `a` at position 0 and `b` at position 1. -/
def demoPairDb : Database :=
  { users := [demoUser, demoOther]
    tasks :=
      [ { id := "a", userId := "u1", title := "First", description := "", day := 1,
          position := 0, createdAt := "2024-01-01T00:00:00.000Z" },
        { id := "b", userId := "u1", title := "Second", description := "", day := 1,
          position := 1, createdAt := "2024-01-01T00:00:00.000Z" } ] }

/-- Body of a create request for day 1. -/
def demoCreateDayOneBody : Json := .obj [("title", .str "Buy milk"), ("day", .num 1)]

/-- Body of a create request with a blank title and a fractional day. -/
def demoBlankCreateBody : Json := .obj [("title", .str " "), ("day", .num (5 / 2))]

/-- Body of an update request that changes the day only. -/
def demoUpdateBody : Json := .obj [("day", .num 4)]

/-- A client board with three tasks on day 1 and one on day 3. -/
def demoWeekBoard : Board := fun day =>
  if day = 1 then
    [ { id := "a", userId := "u1", title := "First", description := "", day := 1,
        position := 0, createdAt := "2024-01-01T00:00:00.000Z" },
      { id := "b", userId := "u1", title := "Second", description := "", day := 1,
        position := 1, createdAt := "2024-01-01T00:00:00.000Z" },
      { id := "c", userId := "u1", title := "Third", description := "", day := 1,
        position := 2, createdAt := "2024-01-01T00:00:00.000Z" } ]
  else if day = 3 then
    [ { id := "e", userId := "u1", title := "Fourth", description := "", day := 3,
        position := 0, createdAt := "2024-01-01T00:00:00.000Z" } ]
  else []

/-- A store in which the positions of the day 1 tasks of `demoUser` have a gap. -/
def demoGapDb : Database :=
  { users := [demoUser, demoOther]
    tasks :=
      [ { id := "a", userId := "u1", title := "First", description := "", day := 1,
          position := 0, createdAt := "2024-01-01T00:00:00.000Z" },
        { id := "x", userId := "u2", title := "Read", description := "", day := 1,
          position := 0, createdAt := "2024-01-01T00:00:00.000Z" },
        { id := "b", userId := "u1", title := "Second", description := "", day := 1,
          position := 5, createdAt := "2024-01-01T00:00:00.000Z" } ] }

/-- A client board that holds the tasks of `demoUser` in `demoGapDb`, `b` before `a`. -/
def demoGapBoard : Board := fun day =>
  if day = 1 then
    [ { id := "b", userId := "u1", title := "Second", description := "", day := 1,
        position := 5, createdAt := "2024-01-01T00:00:00.000Z" },
      { id := "a", userId := "u1", title := "First", description := "", day := 1,
        position := 0, createdAt := "2024-01-01T00:00:00.000Z" } ]
  else []

/-- The request `persistReorder` sends for `demoGapBoard` after `normalizeBoard`. -/
def demoPersistRequest : Request :=
  { authorization := some ("Bearer " ++ generateToken demoRuntime 0
      [("id", .str "u1"), ("email", .str "ann@example.org")])
    data := demoStringify (persistReorderPayload (normalizeBoard demoGapBoard)) }

/-- A batch that moves the task `t3` from day 0 to day 3, position 0. -/
def demoMoveBatch : List Json :=
  [.obj [("id", .str "t3"), ("day", .num 3), ("position", .num 0)]]

/-- A batch with one update for the task `t1`. -/
def demoValidBatch : List Json :=
  [.obj [("id", .str "t1"), ("day", .num 3), ("position", .num 0)]]

/-- The batch `demoValidBatch` followed by `null`. -/
def demoNullBatch : List Json :=
  [.obj [("id", .str "t1"), ("day", .num 3), ("position", .num 0)], .null]

/-- A batch with three updates for the task `t1`: a day, a day with a negative position, and
a position. -/
def demoRepeatBatch : List Json :=
  [.obj [("id", .str "t1"), ("day", .num 4)],
   .obj [("id", .str "t1"), ("day", .num 5), ("position", .num (-1))],
   .obj [("id", .str "t1"), ("position", .num 3)]]

/-- The reorder request of `demoUser` for a batch. -/
def demoReorderRequest (batch : List Json) : Request :=
  { authorization := some ("Bearer " ++ generateToken demoRuntime 0
      [("id", .str "u1"), ("email", .str "ann@example.org")])
    data := demoStringify (.obj [("tasks", .arr batch)]) }

/-- A request of `demoUser` with the given body. -/
def demoRequest (data : String) : Request :=
  { authorization := some ("Bearer " ++ demoToken), data := data }

/-! ## Auxiliary facts about strings and tokens -/

theorem splitChars_of_not_mem (sep : Char) (l : List Char) (h : sep ∉ l) :
    splitChars sep l = [l] := by
  induction l with
  | nil => rfl
  | cons c cs ih =>
    have hc : c ≠ sep := fun e => h (e ▸ List.mem_cons_self _ _)
    have hcs : sep ∉ cs := fun m => h (List.mem_cons_of_mem _ m)
    simp [splitChars, hc, ih hcs]

theorem splitChars_append_sep (sep : Char) (a rest : List Char) (h : sep ∉ a) :
    splitChars sep (a ++ sep :: rest) = a :: splitChars sep rest := by
  induction a with
  | nil => simp [splitChars]
  | cons c cs ih =>
    have hc : c ≠ sep := fun e => h (e ▸ List.mem_cons_self _ _)
    have hcs : sep ∉ cs := fun m => h (List.mem_cons_of_mem _ m)
    simp [splitChars, hc, ih hcs]

/-- A token assembled from three dot-free segments splits back into them. -/
theorem jsSplit_three (h p s : String) (hh : '.' ∉ h.data) (hp : '.' ∉ p.data)
    (hs : '.' ∉ s.data) : jsSplit (h ++ "." ++ p ++ "." ++ s) '.' = [h, p, s] := by
  have hdata : (h ++ "." ++ p ++ "." ++ s).data = h.data ++ '.' :: (p.data ++ '.' :: s.data) := by
    simp [String.data_append]
  simp [jsSplit, hdata, splitChars_append_sep _ _ _ hh, splitChars_append_sep _ _ _ hp,
    splitChars_of_not_mem _ _ hs]

theorem timingSafeCompare_self (R : Runtime) (a : String) : timingSafeCompare R a a = true := by
  simp [timingSafeCompare, timingSafeEqual]

theorem timingSafeCompare_eq_true (R : Runtime) (hutf : Function.Injective R.utf8)
    (a b : String) (h : timingSafeCompare R a b = true) : a = b := by
  unfold timingSafeCompare timingSafeEqual at h
  by_cases hl : (R.utf8 a).length = (R.utf8 b).length
  · simp [hl] at h
    exact hutf h
  · simp [hl] at h

/-- What `verifyToken` computes on a token with three segments. -/
theorem verifyToken_of_split (R : Runtime) (now : Nat) (token h p s : String)
    (hsplit : jsSplit token '.' = [h, p, s]) :
    verifyToken R now token =
      if !timingSafeCompare R s (sign R (h ++ "." ++ p)) then none
      else
        match R.parse (R.fromBase64Url p) with
        | none => none
        | some .null => none
        | some payload => if tokenExpired R now (payload.field "exp") then none else some payload := by
  unfold verifyToken
  rw [hsplit]

theorem lookup_set_self (c : Obj) (k : String) (v : Json) : (Obj.set c k v).lookup k = some v := by
  induction c with
  | nil => simp [Obj.set, List.lookup]
  | cons kv rest ih =>
    obtain ⟨k', v'⟩ := kv
    by_cases hk : k' = k
    · simp [Obj.set, hk, List.lookup]
    · have hk' : (k == k') = false := by simpa using fun e => hk e.symm
      simp [Obj.set, hk, List.lookup, hk', ih]

theorem lookup_set_other (c : Obj) (k k' : String) (v : Json) (h : k' ≠ k) :
    (Obj.set c k v).lookup k' = c.lookup k' := by
  induction c with
  | nil =>
    have hk : (k' == k) = false := by simpa using h
    simp [Obj.set, List.lookup, hk]
  | cons kv rest ih =>
    obtain ⟨k₁, v₁⟩ := kv
    by_cases hk : k₁ = k
    · have hk' : (k' == k₁) = false := by simpa [hk] using h
      simp [Obj.set, hk, List.lookup]
      simp [← hk, hk']
    · by_cases h1 : k' = k₁
      · simp [Obj.set, hk, List.lookup, h1]
      · have hk' : (k' == k₁) = false := by simpa using h1
        simp [Obj.set, hk, List.lookup, hk', ih]

theorem demoEscape_no_dot (l : List Char) : '.' ∉ demoEscape l := by
  induction l with
  | nil => simp [demoEscape]
  | cons c cs ih =>
    intro hmem
    rw [demoEscape, List.mem_append] at hmem
    rcases hmem with h | h
    · unfold demoEscapeChar at h
      split_ifs at h with h1 h2
      · simp at h
      · simp at h
      · simp at h
        exact h1 h.symm
    · exact ih h

theorem demoRuntime_utf8_injective : Function.Injective demoRuntime.utf8 := by
  intro a b h
  have hinj : Function.Injective Char.toNat :=
    Function.LeftInverse.injective Char.ofNat_toNat
  exact String.ext (List.map_injective_iff.mpr hinj h)

/-! ## Token codec -/

/-- C1 (as amended): a token issued at time `t0` for the claims `c` verifies, at every time
before `exp * 1000` with `exp = floor(t0 / 1000) + 2592000`, to the claims `c` with the field
`exp` set to that value: the payload carries `exp` and agrees with `c` on every field other
than `exp`; from `exp * 1000` on verification fails.  The runtime is assumed to produce
dot-free base64url and digest strings and to decode the encoded body back to itself. -/
theorem generateToken_verifyToken (R : Runtime) (c : Obj) (t0 t : Nat)
    (hb64 : ∀ s, '.' ∉ (R.toBase64Url s).data)
    (hmac : ∀ k s, '.' ∉ (R.hmacSha256 k s).data)
    (hjson : R.parse (R.fromBase64Url (R.toBase64Url (R.stringify
        (.obj (Obj.set c "exp" (.num ((t0 / 1000 + 2592000 : ℕ) : ℚ))))))) =
      some (.obj (Obj.set c "exp" (.num ((t0 / 1000 + 2592000 : ℕ) : ℚ))))) :
    (t < (t0 / 1000 + 2592000) * 1000 →
      verifyToken R t (generateToken R t0 c) =
        some (.obj (Obj.set c "exp" (.num ((t0 / 1000 + 2592000 : ℕ) : ℚ)))))
    ∧ ((t0 / 1000 + 2592000) * 1000 ≤ t → verifyToken R t (generateToken R t0 c) = none)
    ∧ (Obj.set c "exp" (.num ((t0 / 1000 + 2592000 : ℕ) : ℚ))).lookup "exp" =
        some (.num ((t0 / 1000 + 2592000 : ℕ) : ℚ))
    ∧ ∀ k, k ≠ "exp" →
        (Obj.set c "exp" (.num ((t0 / 1000 + 2592000 : ℕ) : ℚ))).lookup k = c.lookup k := by
  have hgen : generateToken R t0 c =
      base64UrlEncode R (R.stringify (.obj [("alg", .str "HS256"), ("typ", .str "JWT")])) ++ "."
        ++ base64UrlEncode R (R.stringify
          (.obj (Obj.set c "exp" (.num ((t0 / 1000 + 2592000 : ℕ) : ℚ))))) ++ "."
        ++ sign R (base64UrlEncode R
            (R.stringify (.obj [("alg", .str "HS256"), ("typ", .str "JWT")])) ++ "."
          ++ base64UrlEncode R (R.stringify
            (.obj (Obj.set c "exp" (.num ((t0 / 1000 + 2592000 : ℕ) : ℚ)))))) := rfl
  have hv := verifyToken_of_split R t _ _ _ _
    (jsSplit_three
      (base64UrlEncode R (R.stringify (.obj [("alg", .str "HS256"), ("typ", .str "JWT")])))
      (base64UrlEncode R (R.stringify
        (.obj (Obj.set c "exp" (.num ((t0 / 1000 + 2592000 : ℕ) : ℚ))))))
      (sign R (base64UrlEncode R
          (R.stringify (.obj [("alg", .str "HS256"), ("typ", .str "JWT")])) ++ "."
        ++ base64UrlEncode R (R.stringify
          (.obj (Obj.set c "exp" (.num ((t0 / 1000 + 2592000 : ℕ) : ℚ)))))))
      (hb64 _) (hb64 _) (hmac _ _))
  have hexp : tokenExpired R t (some (.num ((t0 / 1000 + 2592000 : ℕ) : ℚ))) =
      decide ((t0 / 1000 + 2592000) * 1000 ≤ t) := by
    have hpos : ((t0 / 1000 + 2592000 : ℕ) : ℚ) ≠ 0 := by
      have h0 : t0 / 1000 + 2592000 ≠ 0 := by omega
      exact_mod_cast h0
    have hcast : (((t0 / 1000 + 2592000 : ℕ) : ℚ) * 1000 ≤ (t : ℚ)) ↔
        (t0 / 1000 + 2592000) * 1000 ≤ t := by
      exact_mod_cast Iff.rfl
    simp only [tokenExpired, jsTruthy, jsToNumber, hpos, ne_eq, not_false_eq_true,
      decide_True, Bool.true_and, hcast]
  have hfield : (Json.obj (Obj.set c "exp" (.num ((t0 / 1000 + 2592000 : ℕ) : ℚ)))).field "exp" =
      some (.num ((t0 / 1000 + 2592000 : ℕ) : ℚ)) := lookup_set_self c "exp" _
  have hmain : verifyToken R t (generateToken R t0 c) =
      if (t0 / 1000 + 2592000) * 1000 ≤ t then none
      else some (.obj (Obj.set c "exp" (.num ((t0 / 1000 + 2592000 : ℕ) : ℚ)))) := by
    rw [hgen, hv]
    simp only [timingSafeCompare_self, Bool.not_true, Bool.false_eq_true, if_false]
    simp only [base64UrlEncode] at hjson ⊢
    rw [hjson]
    simp only [hfield, hexp, decide_eq_true_eq]
  refine ⟨fun hlt => ?_, fun hle => ?_, lookup_set_self c "exp" _, fun k hk => lookup_set_other c "exp" k _ hk⟩
  · rw [hmain, if_neg (by omega)]
  · rw [hmain, if_pos hle]

/-- Instance of `generateToken_verifyToken`: the token issued to `demoUser` at time 0 is
read back one hour later. -/
theorem generateToken_verifyToken_witness :
    verifyToken demoRuntime 3600000 (generateToken demoRuntime 0 demoClaims) =
      some (.obj (Obj.set demoClaims "exp" (.num ((0 / 1000 + 2592000 : ℕ) : ℚ)))) :=
  (generateToken_verifyToken demoRuntime demoClaims 0 3600000
    (fun _ => demoEscape_no_dot _) (fun _ _ => demoEscape_no_dot _) (by decide!)).1 (by decide)

/-- C1 (as stated) fails for claims that carry their own `exp`: the issued token verifies to
a payload whose `exp` is the stamped expiry, not the `exp` of the claims. -/
theorem generateToken_overwrites_exp :
    verifyToken demoRuntime 3600000 (generateToken demoRuntime 0 [("exp", .num 1)]) =
        some (.obj [("exp", .num 2592000)])
    ∧ ¬ (∀ k v, List.lookup k [("exp", Json.num 1)] = some v →
          List.lookup k [("exp", Json.num 2592000)] = some v) :=
  ⟨by decide!, fun h => absurd (h "exp" (.num 1) (by decide!)) (by decide!)⟩

/-- C2: `verifyToken` returns a payload only for a token that splits on the dot into exactly
three segments `h`, `p`, `s` with `s = sign(h + '.' + p)`; a token with another number of
segments, or whose third segment differs from the recomputed signature, is rejected.
The runtime is assumed to encode distinct strings to distinct byte sequences. -/
theorem verifyToken_checks_signature (R : Runtime) (now : Nat) (token : String)
    (hutf : Function.Injective R.utf8) :
    (∀ payload, verifyToken R now token = some payload →
      ∃ h p s, jsSplit token '.' = [h, p, s] ∧ s = sign R (h ++ "." ++ p))
    ∧ ((jsSplit token '.').length ≠ 3 → verifyToken R now token = none)
    ∧ (∀ h p s, jsSplit token '.' = [h, p, s] → s ≠ sign R (h ++ "." ++ p) →
        verifyToken R now token = none) := by
  have hreject : ∀ h p s, jsSplit token '.' = [h, p, s] → s ≠ sign R (h ++ "." ++ p) →
      verifyToken R now token = none := by
    intro h p s hsplit hne
    rw [verifyToken_of_split R now token h p s hsplit]
    have hcmp : timingSafeCompare R s (sign R (h ++ "." ++ p)) = false := by
      cases hc : timingSafeCompare R s (sign R (h ++ "." ++ p))
      · rfl
      · exact absurd (timingSafeCompare_eq_true R hutf _ _ hc) hne
    simp [hcmp]
  have hlen : (jsSplit token '.').length ≠ 3 → verifyToken R now token = none := by
    intro hl
    unfold verifyToken
    split
    · rename_i h p s heq
      rw [heq] at hl
      exact absurd rfl hl
    · rfl
  refine ⟨fun payload hv => ?_, hlen, hreject⟩
  by_cases hl : (jsSplit token '.').length = 3
  · match hsp : jsSplit token '.', hl with
    | [h, p, s], _ =>
      refine ⟨h, p, s, rfl, ?_⟩
      by_contra hne
      rw [hreject h p s hsp hne] at hv
      exact Option.noConfusion hv
  · rw [hlen hl] at hv
    exact Option.noConfusion hv

/-- Instance of `verifyToken_checks_signature`: the token of `demoUser` with one character
appended to its signature is rejected. -/
theorem verifyToken_checks_signature_witness :
    Function.Injective demoRuntime.utf8 ∧
      verifyToken demoRuntime 3600000 (demoToken ++ "x") = none :=
  ⟨demoRuntime_utf8_injective,
    (verifyToken_checks_signature demoRuntime 3600000 (demoToken ++ "x")
      demoRuntime_utf8_injective).2.2 demoHeaderSegment demoPayloadSegment
      (sign demoRuntime (demoHeaderSegment ++ "." ++ demoPayloadSegment) ++ "x")
      (by decide!) (by decide!)⟩

/-- C3: behaviour of the expiry test on a token with three segments, a matching signature
and a payload object whose `exp` is the number `exp`: for `exp ≠ 0` the token is rejected
at every time `now ≥ exp * 1000`, but for `exp = 0` the test `payload.exp && ...` is skipped
and the token is accepted at every time. -/
theorem verifyToken_expiry (R : Runtime) (now : Nat) (token h p s : String) (fields : Obj)
    (exp : ℚ) (hsplit : jsSplit token '.' = [h, p, s]) (hsig : s = sign R (h ++ "." ++ p))
    (hparse : R.parse (R.fromBase64Url p) = some (.obj fields))
    (hexp : fields.lookup "exp" = some (.num exp)) :
    (exp ≠ 0 → exp * 1000 ≤ (now : ℚ) → verifyToken R now token = none)
    ∧ (exp = 0 → verifyToken R now token = some (.obj fields)) := by
  have hv := verifyToken_of_split R now token h p s hsplit
  rw [hsig] at hv
  simp only [timingSafeCompare_self, Bool.not_true, Bool.false_eq_true, if_false, hparse] at hv
  have hfield : (Json.obj fields).field "exp" = some (.num exp) := hexp
  rw [hfield] at hv
  constructor
  · intro hne hle
    rw [hv]
    simp [tokenExpired, jsTruthy, jsToNumber, hne, hle]
  · intro h0
    rw [hv]
    simp [tokenExpired, jsTruthy, jsToNumber, h0]

/-- Instance of `verifyToken_expiry` at the failing input: the signed token with `exp = 0`
is accepted in the year 2023. -/
theorem verifyToken_expiry_witness :
    verifyToken demoRuntime 1700000000000 demoEpochToken =
      some (.obj [("id", .str "u1"), ("exp", .num 0)]) :=
  (verifyToken_expiry demoRuntime 1700000000000 demoEpochToken "h"
    (demoRuntime.toBase64Url (demoStringify (.obj [("id", .str "u1"), ("exp", .num 0)])))
    (sign demoRuntime ("h." ++ demoRuntime.toBase64Url
      (demoStringify (.obj [("id", .str "u1"), ("exp", .num 0)]))))
    [("id", .str "u1"), ("exp", .num 0)] 0 (by decide!) (by decide!) (by decide!)
    (by decide!)).2 rfl

/-! ## Passwords and user records -/

/-- C4 (as amended): a hash produced by `hashPassword` verifies; in general `verifyPassword`
returns true exactly when the bytes hex-decoded from `user.passwordHash` are the derived key,
and when `user.passwordHash` is itself the hexadecimal encoding of a key (as every hash that
`hashPassword` produces is) exactly when it equals the derived hash.  The runtime is assumed
to decode the hexadecimal encoding of the two keys back to them. -/
theorem verifyPassword_spec (R : Runtime) (password : String) (user : User) (key : List Nat)
    (hkey : R.fromHex (R.toHex key) = key)
    (hderived : R.fromHex (R.toHex (R.pbkdf2Sync password user.salt)) =
      R.pbkdf2Sync password user.salt) :
    (user.passwordHash = (hashPassword R password user.salt).2 →
      verifyPassword R password user = some true)
    ∧ (verifyPassword R password user = some true ↔
        R.fromHex user.passwordHash = R.pbkdf2Sync password user.salt)
    ∧ (user.passwordHash = R.toHex key →
        (verifyPassword R password user = some true ↔
          user.passwordHash = (hashPassword R password user.salt).2)) := by
  have hiff : verifyPassword R password user = some true ↔
      R.fromHex user.passwordHash = R.pbkdf2Sync password user.salt := by
    simp only [verifyPassword, timingSafeEqual, hderived]
    constructor
    · intro h
      split_ifs at h with hl
      simp only [Option.some.injEq, decide_eq_true_eq] at h
      exact h.symm
    · intro h
      simp [h]
  refine ⟨fun h => ?_, hiff, fun hcanon => ?_⟩
  · rw [hiff, h]
    exact hderived
  · rw [hiff]
    constructor
    · intro h
      rw [hcanon, hkey] at h
      rw [hcanon, h]
      rfl
    · intro h
      rw [h]
      exact hderived

/-- Instance of `verifyPassword_spec`: the stored hash of `demoUser` verifies for the
password it was derived from. -/
theorem verifyPassword_spec_witness :
    verifyPassword demoRuntime "secret" demoUser = some true :=
  (verifyPassword_spec demoRuntime "secret" demoUser (demoPbkdf2 "secret" "aa")
    (by decide!) (by decide!)).1 (by decide!)

/-- C4 (as stated) fails: the stored hash written in upper-case hexadecimal digits is not
the derived hash, yet `verifyPassword` returns true, because the two strings are compared
after hexadecimal decoding. -/
theorem verifyPassword_accepts_upper_case :
    verifyPassword demoRuntime "secret"
        { demoUser with
          passwordHash := "D5802BD6812CD7822DD8832ED9842FDA8530DB8631DC8732DD8833DE8934DF8A" } =
      some true
    ∧ "D5802BD6812CD7822DD8832ED9842FDA8530DB8631DC8732DD8833DE8934DF8A" ≠
        (hashPassword demoRuntime "secret" demoUser.salt).2 :=
  ⟨by decide!, by decide!⟩

theorem lookup_sanitizeUser (u : Obj) (k : String) (h1 : k ≠ "passwordHash") (h2 : k ≠ "salt") :
    (sanitizeUser u).lookup k = u.lookup k := by
  induction u with
  | nil => rfl
  | cons kv rest ih =>
    obtain ⟨k', v'⟩ := kv
    unfold sanitizeUser at ih ⊢
    by_cases hs : k' = "passwordHash" ∨ k' = "salt"
    · have hp : ¬ ((fun kv : String × Json => kv.1 != "passwordHash" && kv.1 != "salt")
          (k', v') = true) := by
        rcases hs with hs | hs <;> simp [hs]
      have hk' : (k == k') = false := by
        rcases hs with hs | hs
        · simpa [hs] using h1
        · simpa [hs] using h2
      have hf := @List.filter_cons_of_neg _
        (fun kv : String × Json => kv.1 != "passwordHash" && kv.1 != "salt") (k', v') rest hp
      rw [hf, ih, List.lookup_cons, hk']
    · push_neg at hs
      have hp : (fun kv : String × Json => kv.1 != "passwordHash" && kv.1 != "salt")
          (k', v') = true := by
        simp [hs.1, hs.2]
      have hf := @List.filter_cons_of_pos _
        (fun kv : String × Json => kv.1 != "passwordHash" && kv.1 != "salt") (k', v') rest hp
      rw [hf, List.lookup_cons, List.lookup_cons, ih]

/-- C6: the object returned by `sanitizeUser` has no `passwordHash` and no `salt` property
and agrees with the user record on every other property; two records with the same properties
in the same order that differ only in the values of `salt` and `passwordHash` have the same
image. -/
theorem sanitizeUser_spec (u : Obj) :
    "passwordHash" ∉ (sanitizeUser u).map Prod.fst
    ∧ "salt" ∉ (sanitizeUser u).map Prod.fst
    ∧ (∀ k, k ≠ "passwordHash" → k ≠ "salt" → (sanitizeUser u).lookup k = u.lookup k)
    ∧ (∀ u' : Obj,
        List.Forall₂ (fun a b => a.1 = b.1 ∧ (a.1 ≠ "passwordHash" → a.1 ≠ "salt" → a.2 = b.2))
          u u' →
        sanitizeUser u = sanitizeUser u') := by
  refine ⟨?_, ?_, fun k h1 h2 => lookup_sanitizeUser u k h1 h2, ?_⟩
  · simp [sanitizeUser, List.mem_filter]
  · simp [sanitizeUser, List.mem_filter]
  · intro u' hrel
    induction hrel with
    | nil => rfl
    | @cons a b l l' hab _ ih =>
      obtain ⟨ka, va⟩ := a
      obtain ⟨kb, vb⟩ := b
      obtain ⟨hk, hv⟩ := hab
      simp only at hk hv
      subst hk
      unfold sanitizeUser at ih ⊢
      by_cases hs : ka = "passwordHash" ∨ ka = "salt"
      · rcases hs with hs | hs <;> simp [List.filter, hs, ih]
      · push_neg at hs
        rw [hv hs.1 hs.2]
        simp [List.filter, hs.1, hs.2, ih]

/-- Instance of `sanitizeUser_spec`: changing salt and hash of `demoUser` does not change
what a client sees. -/
theorem sanitizeUser_spec_witness :
    sanitizeUser demoUser.toObj =
      sanitizeUser ({ demoUser with salt := "cc", passwordHash := "ff" } : User).toObj :=
  (sanitizeUser_spec demoUser.toObj).2.2.2 _ (by simp [User.toObj, demoUser])

/-! ## Authentication -/

theorem find_user_of_nodup (users : List User) (hnd : (users.map User.id).Nodup)
    (id : String) (u : User) :
    users.find? (fun item => strictEqualsString item.id (some (.str id))) = some u ↔
      u ∈ users ∧ u.id = id := by
  induction users with
  | nil => simp
  | cons a l ih =>
    rw [List.map_cons, List.nodup_cons] at hnd
    by_cases ha : a.id = id
    · have hfind : (a :: l).find? (fun item => strictEqualsString item.id (some (.str id))) =
          some a := by
        simp [List.find?, strictEqualsString, ha]
      rw [hfind]
      constructor
      · intro h
        have hau : a = u := Option.some.inj h
        subst hau
        exact ⟨List.mem_cons_self _ _, ha⟩
      · rintro ⟨hmem, hid⟩
        rcases List.mem_cons.mp hmem with h | h
        · rw [h]
        · exact absurd (List.mem_map.mpr ⟨u, h, hid.trans ha.symm⟩) hnd.1
    · have hfind : (a :: l).find? (fun item => strictEqualsString item.id (some (.str id))) =
          l.find? (fun item => strictEqualsString item.id (some (.str id))) := by
        simp [List.find?, strictEqualsString, ha]
      rw [hfind, ih hnd.2]
      constructor
      · rintro ⟨hmem, hid⟩
        exact ⟨List.mem_cons_of_mem _ hmem, hid⟩
      · rintro ⟨hmem, hid⟩
        rcases List.mem_cons.mp hmem with h | h
        · exact absurd (h ▸ hid) ha
        · exact ⟨h, hid⟩

theorem jsStartsWith_ne_empty (header : String) (h : jsStartsWith header "Bearer " = true) :
    header ≠ "" := by
  intro he
  subst he
  simp [jsStartsWith] at h

/-- What `authenticateRequest` computes once the header passed the scheme test. -/
theorem authenticateRequest_bearer (R : Runtime) (now : Nat) (db : Database) (header : String)
    (hpre : jsStartsWith header "Bearer " = true) :
    authenticateRequest R now db (some header) =
      match verifyToken R now (jsSlice header 7) with
      | none => .error (.json 401 (errorBody "Session invalide ou expirée."))
      | some payload =>
        if !jsTruthy payload then .error (.json 401 (errorBody "Session invalide ou expirée."))
        else
          match db.users.find? (fun item => strictEqualsString item.id (payload.field "id")) with
          | none => .error (.json 401 (errorBody "Compte introuvable."))
          | some user => .ok user := by
  have hne := jsStartsWith_ne_empty header hpre
  simp [authenticateRequest, hpre, hne]

theorem jsTruthy_of_find (users : List User) (payload : Json) (u : User)
    (h : users.find? (fun item => strictEqualsString item.id (payload.field "id")) = some u) :
    jsTruthy payload = true ∧ payload.field "id" = some (.str u.id) := by
  have hp := List.find?_some h
  cases payload with
  | obj kvs =>
    refine ⟨rfl, ?_⟩
    cases hf : (Json.obj kvs).field "id" with
    | none => simp [hf, strictEqualsString] at hp
    | some v =>
      cases v <;> simp [hf, strictEqualsString] at hp
      rw [hp]
  | null => simp [Json.field, strictEqualsString] at hp
  | bool b => simp [Json.field, strictEqualsString] at hp
  | num q => simp [Json.field, strictEqualsString] at hp
  | str s => simp [Json.field, strictEqualsString] at hp
  | arr xs => simp [Json.field, strictEqualsString] at hp

/-- C5: `authenticateRequest` returns the user `u` exactly when the authorization header is
present, starts with `Bearer `, `verifyToken` of the remainder returns a payload and `u` is the
stored user with `u.id = payload.id` (the first one; the only one when ids are distinct).
Otherwise it answers 401 with one of three distinct messages: for a missing or ill-prefixed
header, for every token that `verifyToken` rejects or whose payload is falsy, and for a
payload without stored user.  The store is never written. -/
theorem authenticateRequest_spec (R : Runtime) (env : Env) (db : Database) (req : Request) :
    (∀ u, authenticateRequest R env.now db req.authorization = .ok u ↔
      ∃ header payload, req.authorization = some header ∧
        jsStartsWith header "Bearer " = true ∧
        verifyToken R env.now (jsSlice header 7) = some payload ∧
        db.users.find? (fun item => strictEqualsString item.id (payload.field "id")) = some u)
    ∧ ((db.users.map User.id).Nodup →
        ∀ u, authenticateRequest R env.now db req.authorization = .ok u ↔
          ∃ header payload, req.authorization = some header ∧
            jsStartsWith header "Bearer " = true ∧
            verifyToken R env.now (jsSlice header 7) = some payload ∧
            u ∈ db.users ∧ payload.field "id" = some (.str u.id))
    ∧ ((req.authorization = none ∨
          ∃ header, req.authorization = some header ∧ jsStartsWith header "Bearer " = false) →
        authenticateRequest R env.now db req.authorization =
          .error (.json 401 (errorBody "Authentification requise.")))
    ∧ (∀ header, req.authorization = some header → jsStartsWith header "Bearer " = true →
        (verifyToken R env.now (jsSlice header 7) = none ∨
          ∃ payload, verifyToken R env.now (jsSlice header 7) = some payload ∧
            jsTruthy payload = false) →
        authenticateRequest R env.now db req.authorization =
          .error (.json 401 (errorBody "Session invalide ou expirée.")))
    ∧ (∀ header payload, req.authorization = some header →
        jsStartsWith header "Bearer " = true →
        verifyToken R env.now (jsSlice header 7) = some payload → jsTruthy payload = true →
        db.users.find? (fun item => strictEqualsString item.id (payload.field "id")) = none →
        authenticateRequest R env.now db req.authorization =
          .error (.json 401 (errorBody "Compte introuvable.")))
    ∧ (∀ r, authenticateRequest R env.now db req.authorization = .error r →
        ∃ message, r = .json 401 (errorBody message))
    ∧ ("Authentification requise." ≠ "Session invalide ou expirée."
        ∧ "Authentification requise." ≠ "Compte introuvable."
        ∧ "Session invalide ou expirée." ≠ "Compte introuvable.")
    ∧ (handleCurrentUser R env db req).db = db := by
  have hfirst : ∀ u, authenticateRequest R env.now db req.authorization = .ok u ↔
      ∃ header payload, req.authorization = some header ∧
        jsStartsWith header "Bearer " = true ∧
        verifyToken R env.now (jsSlice header 7) = some payload ∧
        db.users.find? (fun item => strictEqualsString item.id (payload.field "id")) = some u := by
    intro u
    constructor
    · intro h
      cases hauth : req.authorization with
      | none => simp [hauth, authenticateRequest] at h
      | some header =>
        rw [hauth] at h
        cases hpre : jsStartsWith header "Bearer " with
        | false => simp [authenticateRequest, hpre] at h
        | true =>
          rw [authenticateRequest_bearer R env.now db header hpre] at h
          cases hv : verifyToken R env.now (jsSlice header 7) with
          | none => simp [hv] at h
          | some payload =>
            rw [hv] at h
            cases ht : jsTruthy payload with
            | false => simp [ht] at h
            | true =>
              simp only [ht, Bool.not_true, Bool.false_eq_true, if_false] at h
              cases hf : db.users.find?
                  (fun item => strictEqualsString item.id (payload.field "id")) with
              | none => simp [hf] at h
              | some user =>
                rw [hf] at h
                simp only [Except.ok.injEq] at h
                exact ⟨header, payload, rfl, hpre, hv, by rw [hf, h]⟩
    · rintro ⟨header, payload, hauth, hpre, hv, hf⟩
      rw [hauth, authenticateRequest_bearer R env.now db header hpre, hv]
      simp [(jsTruthy_of_find db.users payload u hf).1, hf]
  have hall : ∀ r, authenticateRequest R env.now db req.authorization = .error r →
      ∃ message, r = .json 401 (errorBody message) := by
    intro r h
    unfold authenticateRequest at h
    split at h
    · exact ⟨_, (Except.error.inj h).symm⟩
    · split at h
      · exact ⟨_, (Except.error.inj h).symm⟩
      · simp only at h
        split at h
        · exact ⟨_, (Except.error.inj h).symm⟩
        · split at h
          · exact ⟨_, (Except.error.inj h).symm⟩
          · split at h
            · exact ⟨_, (Except.error.inj h).symm⟩
            · exact Except.noConfusion h
  refine ⟨hfirst, fun hnd u => ?_, ?_, ?_, ?_, hall, by decide, ?_⟩
  · rw [hfirst u]
    constructor
    · rintro ⟨header, payload, hauth, hpre, hv, hf⟩
      have hid := (jsTruthy_of_find db.users payload u hf).2
      rw [hid] at hf
      exact ⟨header, payload, hauth, hpre, hv, ((find_user_of_nodup db.users hnd u.id u).mp hf).1, hid⟩
    · rintro ⟨header, payload, hauth, hpre, hv, hmem, hid⟩
      refine ⟨header, payload, hauth, hpre, hv, ?_⟩
      rw [hid]
      exact (find_user_of_nodup db.users hnd u.id u).mpr ⟨hmem, rfl⟩
  · rintro (h | ⟨header, hauth, hpre⟩)
    · simp [h, authenticateRequest]
    · simp [hauth, authenticateRequest, hpre]
  · intro header hauth hpre hfail
    rw [hauth, authenticateRequest_bearer R env.now db header hpre]
    rcases hfail with hv | ⟨payload, hv, ht⟩
    · simp [hv]
    · simp [hv, ht]
  · intro header payload hauth hpre hv ht hf
    rw [hauth, authenticateRequest_bearer R env.now db header hpre, hv]
    simp [ht, hf]
  · unfold handleCurrentUser
    split <;> rfl

/-- Instance of `authenticateRequest_spec`: the bearer token of `demoUser` resolves to
`demoUser` in a store with distinct user ids. -/
theorem authenticateRequest_spec_witness :
    (demoDb.users.map User.id).Nodup ∧
      authenticateRequest demoRuntime demoEnv.now demoDb (demoRequest "").authorization =
        .ok demoUser :=
  ⟨by decide,
    ((authenticateRequest_spec demoRuntime demoEnv demoDb (demoRequest "")).2.1 (by decide)
      demoUser).mpr
      ⟨"Bearer " ++ demoToken,
        .obj [("id", .str "u1"), ("email", .str "ann@example.org"), ("exp", .num 2592000)],
        rfl, by decide!, by decide!, by decide!, by decide!⟩⟩

/-! ## Registration -/

/-- The two ways `handleRegister` ends on a body with string `email` and `password`: without
writing (answering 400, or throwing when nobody holds the e-mail), or appending one user whose
e-mail is the lower-cased one. -/
theorem handleRegister_cases (R : Runtime) (env : Env) (db : Database) (req : Request)
    (body : Json) (email password : String)
    (hbody : parseJsonBody R req.data = .ok body)
    (hemail : body.field "email" = some (.str email))
    (hpassword : body.field "password" = some (.str password)) :
    ((handleRegister R env db req).db = db ∧
      ((handleRegister R env db req).reply = .json 400 (errorBody "Email et mot de passe requis.")
        ∨ (handleRegister R env db req).reply =
            .json 400 (errorBody "Un compte avec cet e-mail existe déjà.")
        ∨ ((handleRegister R env db req).reply = .threw ∧
            ¬ ∃ u ∈ db.users, R.toLowerCase u.email = R.toLowerCase email)))
    ∨ ((¬ ∃ u ∈ db.users, R.toLowerCase u.email = R.toLowerCase email) ∧
        ∃ u b, handleRegister R env db req =
            ⟨.json 201 b, { db with users := db.users ++ [u] }⟩ ∧
          u.email = R.toLowerCase email) := by
  obtain ⟨kvs, rfl⟩ : ∃ kvs, body = .obj kvs := by
    cases body <;> simp [Json.field] at hemail
    exact ⟨_, rfl⟩
  have hex : (db.users.find? (fun user => R.toLowerCase user.email == R.toLowerCase email)).isSome
      = true ↔ ∃ u ∈ db.users, R.toLowerCase u.email = R.toLowerCase email := by
    simp [List.find?_isSome]
  unfold handleRegister
  simp only [hbody, jsTruthy, hemail, hpassword, truthy, Bool.not_true, Bool.false_eq_true,
    if_false]
  by_cases he : email = ""
  · left
    simp [he]
  by_cases hp : password = ""
  · left
    simp [hp]
  simp only [ne_eq, he, not_false_eq_true, decide_True, Bool.not_true, hp, Bool.or_self,
    Bool.false_eq_true, if_false]
  by_cases hdup : ∃ u ∈ db.users, R.toLowerCase u.email = R.toLowerCase email
  · left
    rw [if_pos (hex.mpr hdup)]
    simp
  · rw [if_neg (fun h => hdup (hex.mp h))]
    cases hname : optionalTrim ((Json.obj kvs).field "name") with
    | none =>
      left
      simp [hashPassword, hdup]
    | some trimmed =>
      right
      exact ⟨hdup, _, _, rfl, rfl⟩

/-- C7: registration preserves case-insensitive uniqueness of e-mails: on a request whose
body has a string `email` and a string `password` the store still has no two users whose
e-mails are equal after lower-casing; a request for an e-mail that equals a stored one up to
case is answered 400 and the store is unchanged; a registration answered 201 appends one user
whose e-mail is the lower-cased one.  The runtime is assumed to lower-case the lower-cased
e-mail to itself. -/
theorem handleRegister_email_unique (R : Runtime) (env : Env) (db : Database) (req : Request)
    (body : Json) (email password : String)
    (hbody : parseJsonBody R req.data = .ok body)
    (hemail : body.field "email" = some (.str email))
    (hpassword : body.field "password" = some (.str password))
    (hlower : R.toLowerCase (R.toLowerCase email) = R.toLowerCase email)
    (hinv : emailsDistinct R db) :
    emailsDistinct R (handleRegister R env db req).db
    ∧ ((∃ u ∈ db.users, R.toLowerCase u.email = R.toLowerCase email) →
        (∃ message, (handleRegister R env db req).reply = .json 400 (errorBody message))
          ∧ (handleRegister R env db req).db = db)
    ∧ (∀ b, (handleRegister R env db req).reply = .json 201 b →
        ∃ u, (handleRegister R env db req).db.users = db.users ++ [u]
          ∧ u.email = R.toLowerCase email
          ∧ (handleRegister R env db req).db.tasks = db.tasks) := by
  rcases handleRegister_cases R env db req body email password hbody hemail hpassword with
    ⟨hdb, hreply⟩ | ⟨hnew, u, b, hout, hu⟩
  · refine ⟨by rw [hdb]; exact hinv, fun hdup => ⟨?_, hdb⟩, fun b hb => ?_⟩
    · rcases hreply with h | h | ⟨_, h⟩
      · exact ⟨_, h⟩
      · exact ⟨_, h⟩
      · exact absurd hdup h
    · rcases hreply with h | h | ⟨h, _⟩ <;> rw [h] at hb <;> simp [errorBody] at hb
  · refine ⟨?_, fun hdup => absurd hdup hnew, fun _ _ => ⟨u, by rw [hout], hu, by rw [hout]⟩⟩
    rw [hout]
    unfold emailsDistinct at hinv ⊢
    rw [List.pairwise_append]
    refine ⟨hinv, List.pairwise_singleton _ _, fun a ha c hc => ?_⟩
    rw [List.mem_singleton] at hc
    rw [hc, hu, hlower]
    exact fun h => hnew ⟨a, ha, h⟩

/-- Instance of `handleRegister_email_unique`: registering `Ann@Example.org` while
`ann@example.org` is stored leaves the store unchanged. -/
theorem handleRegister_email_unique_witness :
    (handleRegister demoRuntime demoEnv demoDb demoRegisterRequest).db = demoDb :=
  ((handleRegister_email_unique demoRuntime demoEnv demoDb demoRegisterRequest
    (.obj [("email", .str "Ann@Example.org"), ("password", .str "secret")])
    "Ann@Example.org" "secret" (by decide!) (by decide!) (by decide!) (by decide!)
    (by decide!)).2.1 ⟨demoUser, by decide!, by decide!⟩).2

/-! ## Creating tasks -/

/-- What `handleCreateTask` computes for an authenticated user on a body with a non-empty
string title and a numeric day in the range 0 to 6. -/
theorem handleCreateTask_eq (R : Runtime) (env : Env) (db : Database) (req : Request)
    (user : User) (body : Json) (title : String) (day : ℚ)
    (hauth : authenticateRequest R env.now db req.authorization = .ok user)
    (hbody : parseJsonBody R req.data = .ok body)
    (htitle : body.field "title" = some (.str title)) (hne : title ≠ "")
    (hday : body.field "day" = some (.num day)) (hrange : 0 ≤ day ∧ day ≤ 6) :
    handleCreateTask R env db req =
      match optionalTrim (body.field "description") with
      | none => ⟨.threw, db⟩
      | some trimmed =>
        ⟨.json 201 (.obj [("task", Task.toJson
            { id := env.uuid, userId := user.id, title := jsTrim title,
              description := match trimmed with
                             | some d => if d ≠ "" then d else ""
                             | none => ""
              day := day
              position := ((db.tasks.filter
                (fun task => task.userId = user.id ∧ task.day = day)).length : ℚ)
              createdAt := env.isoNow })]),
          { db with tasks := db.tasks ++
            [{ id := env.uuid, userId := user.id, title := jsTrim title,
               description := match trimmed with
                              | some d => if d ≠ "" then d else ""
                              | none => ""
               day := day
               position := ((db.tasks.filter
                 (fun task => task.userId = user.id ∧ task.day = day)).length : ℚ)
               createdAt := env.isoNow }] }⟩ := by
  obtain ⟨kvs, rfl⟩ : ∃ kvs, body = .obj kvs := by
    cases body <;> simp [Json.field] at htitle
    exact ⟨_, rfl⟩
  have hr : ¬ (day < 0 ∨ day > 6) := by
    rintro (h | h)
    · exact absurd hrange.1 (not_le.mpr h)
    · exact absurd hrange.2 (not_le.mpr h)
  unfold handleCreateTask
  simp only [hauth, hbody, jsTruthy, Bool.not_true, Bool.false_eq_true, if_false, htitle,
    hne, hday, hr]

/-- C8: for an authenticated user and a body with a non-empty string title and a numeric day
in the range 0 to 6, `handleCreateTask` appends one task to the store, all stored tasks
unchanged, whose position is the number of stored tasks of that user on that day, with the
requested day, the trimmed title and the user as owner, so that the bucket then holds one task
more (position 0 in an empty bucket, 1 for the next task of that day), provided the
description is absent, null or a string.  For any other description the call
`description?.trim()` throws and nothing is stored. -/
theorem handleCreateTask_spec (R : Runtime) (env : Env) (db : Database) (req : Request)
    (user : User) (body : Json) (title : String) (day : ℚ)
    (hauth : authenticateRequest R env.now db req.authorization = .ok user)
    (hbody : parseJsonBody R req.data = .ok body)
    (htitle : body.field "title" = some (.str title)) (hne : title ≠ "")
    (hday : body.field "day" = some (.num day)) (hrange : 0 ≤ day ∧ day ≤ 6) :
    (∀ trimmed, optionalTrim (body.field "description") = some trimmed →
      ∃ task : Task,
        handleCreateTask R env db req =
          ⟨.json 201 (.obj [("task", task.toJson)]), { db with tasks := db.tasks ++ [task] }⟩
        ∧ task.position = ((db.tasks.filter
            (fun t => t.userId = user.id ∧ t.day = day)).length : ℚ)
        ∧ task.day = day ∧ task.title = jsTrim title ∧ task.userId = user.id
        ∧ ((db.tasks ++ [task]).filter (fun t => t.userId = user.id ∧ t.day = day)).length =
            (db.tasks.filter (fun t => t.userId = user.id ∧ t.day = day)).length + 1)
    ∧ (optionalTrim (body.field "description") = none →
        handleCreateTask R env db req = ⟨.threw, db⟩) := by
  have heq := handleCreateTask_eq R env db req user body title day hauth hbody htitle hne hday
    hrange
  constructor
  · intro trimmed hdesc
    rw [hdesc] at heq
    exact ⟨_, heq, rfl, rfl, rfl, rfl, by simp [List.filter_append]⟩
  · intro hdesc
    rw [hdesc] at heq
    exact heq

/-- Instance of `handleCreateTask_spec`: the create request of `demoUser` with title
`Buy milk` and day 2 appends a task at the position given by the size of the bucket; the same
request with description 5 (the failing input) throws and stores nothing. -/
theorem handleCreateTask_spec_witness :
    (∃ task : Task,
      handleCreateTask demoRuntime demoEnv demoDb (demoRequest (demoStringify demoCreateBody)) =
        ⟨.json 201 (.obj [("task", task.toJson)]),
          { demoDb with tasks := demoDb.tasks ++ [task] }⟩
      ∧ task.position = ((demoDb.tasks.filter
          (fun t => t.userId = demoUser.id ∧ t.day = 2)).length : ℚ)
      ∧ task.day = 2 ∧ task.title = jsTrim "Buy milk" ∧ task.userId = demoUser.id
      ∧ ((demoDb.tasks ++ [task]).filter
          (fun t => t.userId = demoUser.id ∧ t.day = 2)).length =
          (demoDb.tasks.filter (fun t => t.userId = demoUser.id ∧ t.day = 2)).length + 1)
    ∧ handleCreateTask demoRuntime demoEnv demoDb
        (demoRequest (demoStringify demoBadCreateBody)) = ⟨.threw, demoDb⟩ :=
  ⟨(handleCreateTask_spec demoRuntime demoEnv demoDb (demoRequest (demoStringify demoCreateBody))
      demoUser demoCreateBody "Buy milk" 2 (by decide!) (by decide!) (by decide!) (by decide)
      (by decide!) (by decide!)).1 none (by decide!),
    (handleCreateTask_spec demoRuntime demoEnv demoDb
      (demoRequest (demoStringify demoBadCreateBody))
      demoUser demoBadCreateBody "Buy milk" 2 (by decide!) (by decide!) (by decide!) (by decide)
      (by decide!) (by decide!)).2 (by decide!)⟩

/-! ## Listing tasks -/

theorem taskBefore_iff (a b : Task) : taskBefore a b ↔ dayPositionLe a b := by
  unfold taskBefore compareTasks dayPositionLe
  by_cases h : a.day - b.day = 0
  · have hd : a.day = b.day := sub_eq_zero.mp h
    simp [h, hd]
  · have hd : a.day ≠ b.day := fun e => h (sub_eq_zero.mpr e)
    simp only [ne_eq, h, not_false_eq_true, if_true, sub_nonpos, hd, false_and, or_false]
    exact ⟨fun hle => lt_of_le_of_ne hle hd, le_of_lt⟩

instance : IsTotal Task taskBefore where
  total a b := by
    rw [taskBefore_iff, taskBefore_iff]
    unfold dayPositionLe
    rcases lt_trichotomy a.day b.day with h | h | h
    · exact Or.inl (Or.inl h)
    · rcases le_total a.position b.position with hp | hp
      · exact Or.inl (Or.inr ⟨h, hp⟩)
      · exact Or.inr (Or.inr ⟨h.symm, hp⟩)
    · exact Or.inr (Or.inl h)

instance : IsTrans Task taskBefore where
  trans a b c := by
    rw [taskBefore_iff, taskBefore_iff, taskBefore_iff]
    unfold dayPositionLe
    rintro (h1 | ⟨h1, p1⟩) (h2 | ⟨h2, p2⟩)
    · exact Or.inl (lt_trans h1 h2)
    · exact Or.inl (h2 ▸ h1)
    · exact Or.inl (h1 ▸ h2)
    · exact Or.inr ⟨h1.trans h2, le_trans p1 p2⟩

/-- C9: for an authenticated user, `handleGetTasks` answers 200 with a list that is a
permutation of the stored tasks whose `userId` is the user's id, sorted in non-decreasing
lexicographic order of `(day, position)`; the store is unchanged. -/
theorem handleGetTasks_spec (R : Runtime) (env : Env) (db : Database) (req : Request)
    (user : User) (hauth : authenticateRequest R env.now db req.authorization = .ok user) :
    ∃ tasks : List Task,
      handleGetTasks R env db req =
        ⟨.json 200 (.obj [("tasks", .arr (tasks.map Task.toJson))]), db⟩
      ∧ tasks.Perm (db.tasks.filter (fun task => task.userId = user.id))
      ∧ tasks.Sorted dayPositionLe := by
  refine ⟨(db.tasks.filter (fun task => task.userId = user.id)).insertionSort taskBefore,
    ?_, List.perm_insertionSort _ _, ?_⟩
  · unfold handleGetTasks
    rw [hauth]
  · exact (List.sorted_insertionSort taskBefore _).imp (fun h => (taskBefore_iff _ _).mp h)

/-- Instance of `handleGetTasks_spec`: the answer to `demoUser`, whose tasks `t1` (day 2) and
`t3` (day 0) are stored in that order, lists `t3` before `t1` and omits the task of `u2`. -/
theorem handleGetTasks_spec_witness :
    ∃ tasks : List Task,
      handleGetTasks demoRuntime demoEnv demoDb (demoRequest "") =
        ⟨.json 200 (.obj [("tasks", .arr (tasks.map Task.toJson))]), demoDb⟩
      ∧ tasks.Perm (demoDb.tasks.filter (fun task => task.userId = demoUser.id))
      ∧ tasks.Sorted dayPositionLe :=
  handleGetTasks_spec demoRuntime demoEnv demoDb (demoRequest "") demoUser (by decide!)

/-! ## Ownership scoping of update and delete -/

theorem find_task_none (tasks : List Task) (taskId userId : String)
    (habsent : ∀ t ∈ tasks, t.id = taskId → t.userId ≠ userId) :
    tasks.find? (fun item => item.id = taskId ∧ item.userId = userId) = none := by
  rw [List.find?_eq_none]
  intro t ht
  simp only [decide_eq_true_eq, not_and]
  exact habsent t ht

theorem findIdx_task_none (tasks : List Task) (taskId userId : String)
    (habsent : ∀ t ∈ tasks, t.id = taskId → t.userId ≠ userId) :
    tasks.findIdx? (fun item => item.id = taskId ∧ item.userId = userId) = none := by
  rw [List.findIdx?_eq_none_iff]
  intro t ht
  simp only [decide_eq_false_iff_not, not_and]
  exact habsent t ht

/-- C10 (as amended): when every stored task with the given id (if any) is owned by another
user, `handleDeleteTask` answers 404 with the body `Tâche introuvable.` and `handleUpdateTask`
answers the same 404 whenever the request body parses to a truthy JSON value; the answer does
not tell an absent id from a foreign one, and both handlers leave the store unchanged for
every body. -/
theorem update_delete_not_found (R : Runtime) (env : Env) (db : Database) (req : Request)
    (user : User) (taskId : String)
    (hauth : authenticateRequest R env.now db req.authorization = .ok user)
    (habsent : ∀ t ∈ db.tasks, t.id = taskId → t.userId ≠ user.id) :
    handleDeleteTask R env db req taskId = ⟨.json 404 (errorBody "Tâche introuvable."), db⟩
    ∧ (∀ body, parseJsonBody R req.data = .ok body → jsTruthy body = true →
        handleUpdateTask R env db req taskId =
          ⟨.json 404 (errorBody "Tâche introuvable."), db⟩)
    ∧ (handleUpdateTask R env db req taskId).db = db := by
  have hfind := find_task_none db.tasks taskId user.id habsent
  have hidx := findIdx_task_none db.tasks taskId user.id habsent
  refine ⟨?_, fun body hbody ht => ?_, ?_⟩
  · unfold handleDeleteTask
    rw [hauth]
    simp only [hidx]
  · unfold handleUpdateTask
    rw [hauth]
    simp only [hbody, ht, Bool.not_true, Bool.false_eq_true, if_false, hfind]
  · unfold handleUpdateTask
    rw [hauth]
    simp only [hfind]
    cases parseJsonBody R req.data with
    | error r => rfl
    | ok body =>
      simp only
      split <;> rfl

/-- Instance of `update_delete_not_found`: `demoUser` deleting the task `t2` of `u2` is
answered like a request for an id that does not exist. -/
theorem update_delete_not_found_witness :
    handleDeleteTask demoRuntime demoEnv demoDb (demoRequest "") "t2" =
        ⟨.json 404 (errorBody "Tâche introuvable."), demoDb⟩
    ∧ handleDeleteTask demoRuntime demoEnv demoDb (demoRequest "") "nowhere" =
        ⟨.json 404 (errorBody "Tâche introuvable."), demoDb⟩ :=
  ⟨(update_delete_not_found demoRuntime demoEnv demoDb (demoRequest "") demoUser "t2"
      (by decide!) (by decide!)).1,
    (update_delete_not_found demoRuntime demoEnv demoDb (demoRequest "") demoUser "nowhere"
      (by decide!) (by decide!)).1⟩

/-- C10 (as stated) fails for `handleUpdateTask`: on the foreign task `t2`, a body that is
not JSON is answered 400 by `parseJsonBody`, and the JSON body `0` ends the handler without
any answer; neither request is answered 404. -/
theorem handleUpdateTask_body_before_lookup :
    handleUpdateTask demoRuntime demoEnv demoDb (demoRequest "not json") "t2" =
        ⟨.json 400 (errorBody "JSON invalide."), demoDb⟩
    ∧ handleUpdateTask demoRuntime demoEnv demoDb (demoRequest "0") "t2" = ⟨.silent, demoDb⟩ :=
  ⟨by decide!, by decide!⟩

/-! ## Deleting tasks -/

/-- Decomposition of a list at the first element satisfying `p`. -/
theorem findIdx_split (l : List Task) (p : Task → Bool) (h : ∃ x ∈ l, p x = true) :
    ∃ pre t post, l = pre ++ t :: post ∧ p t = true ∧ (∀ x ∈ pre, p x = false) ∧
      l.findIdx? p = some pre.length := by
  induction l with
  | nil => simp at h
  | cons a l ih =>
    by_cases ha : p a = true
    · exact ⟨[], a, l, rfl, ha, by simp, by simp [List.findIdx?_cons, ha]⟩
    · have h' : ∃ x ∈ l, p x = true := by
        obtain ⟨x, hx, hpx⟩ := h
        rcases List.mem_cons.mp hx with e | e
        · exact absurd (e ▸ hpx) ha
        · exact ⟨x, e, hpx⟩
      obtain ⟨pre, t, post, hl, hpt, hpre, hidx⟩ := ih h'
      have ha' : p a = false := by simpa using ha
      refine ⟨a :: pre, t, post, by rw [hl]; rfl, hpt, ?_, ?_⟩
      · intro x hx
        rcases List.mem_cons.mp hx with e | e
        · rw [e]; exact ha'
        · exact hpre x e
      · simp [List.findIdx?_cons, ha', hidx]

theorem eraseIdx_split (pre post : List Task) (t : Task) :
    (pre ++ t :: post).eraseIdx pre.length = pre ++ post := by
  induction pre with
  | nil => rfl
  | cons a pre ih => simp [List.eraseIdx, ih]

/-- C11: for an authenticated user owning a task with the given id, `handleDeleteTask`
answers 204 and removes exactly one task, the first stored task with that id and owner; every
other task stays in the store, in the same order and with all its fields, position included
(no renumbering); the users are untouched. -/
theorem handleDeleteTask_spec (R : Runtime) (env : Env) (db : Database) (req : Request)
    (user : User) (taskId : String)
    (hauth : authenticateRequest R env.now db req.authorization = .ok user)
    (hown : ∃ t ∈ db.tasks, t.id = taskId ∧ t.userId = user.id) :
    ∃ pre t post, db.tasks = pre ++ t :: post ∧ t.id = taskId ∧ t.userId = user.id
      ∧ (∀ x ∈ pre, ¬ (x.id = taskId ∧ x.userId = user.id))
      ∧ handleDeleteTask R env db req taskId =
          ⟨.empty 204, { db with tasks := pre ++ post }⟩ := by
  obtain ⟨pre, t, post, hl, hpt, hpre, hidx⟩ :=
    findIdx_split db.tasks (fun item => decide (item.id = taskId ∧ item.userId = user.id))
      (by
        obtain ⟨t, ht, h⟩ := hown
        exact ⟨t, ht, by simpa using h⟩)
  simp only [decide_eq_true_eq] at hpt
  refine ⟨pre, t, post, hl, hpt.1, hpt.2, fun x hx => by simpa using hpre x hx, ?_⟩
  unfold handleDeleteTask
  rw [hauth]
  simp only [hidx]
  rw [hl, eraseIdx_split]

/-- Instance of `handleDeleteTask_spec`: when `demoUser` deletes the task `a` at position 0,
the sibling `b` stays at position 1. -/
theorem handleDeleteTask_spec_witness :
    ∃ pre t post, demoPairDb.tasks = pre ++ t :: post ∧ t.id = "a" ∧ t.userId = demoUser.id
      ∧ (∀ x ∈ pre, ¬ (x.id = "a" ∧ x.userId = demoUser.id))
      ∧ handleDeleteTask demoRuntime demoEnv demoPairDb (demoRequest "") "a" =
          ⟨.empty 204, { demoPairDb with tasks := pre ++ post }⟩ :=
  handleDeleteTask_spec demoRuntime demoEnv demoPairDb (demoRequest "") demoUser "a"
    (by decide!) (by decide!)

/-- C19: the store `demoPairDb` satisfies I1 in every bucket (`u1` has two tasks on day 1, at
positions 0 and 1); deleting the task at position 0 and then creating a task on day 1 leaves
that bucket with two tasks at position 1 and none at position 0. -/
theorem delete_then_create_duplicates :
    (∀ userId day, bucketGapFree demoPairDb userId day)
    ∧ (bucket demoPairDb "u1" 1).map Task.position = [0, 1]
    ∧ (bucket
        (handleCreateTask demoRuntime demoEnv
          (handleDeleteTask demoRuntime demoEnv demoPairDb (demoRequest "") "a").db
          (demoRequest (demoStringify demoCreateDayOneBody))).db
        "u1" 1).map Task.position = [1, 1] := by
  refine ⟨fun userId day => ?_, by decide!, by decide!⟩
  unfold bucketGapFree bucket
  by_cases h : userId = "u1" ∧ day = 1
  · rw [h.1, h.2]
    have hb : (List.filter (fun task : Task => decide (task.userId = "u1" ∧ task.day = 1))
        demoPairDb.tasks) = demoPairDb.tasks := by decide!
    rw [hb]
    exact List.Perm.of_eq (by decide!)
  · have hb : (List.filter (fun task : Task => decide (task.userId = userId ∧ task.day = day))
        demoPairDb.tasks) = [] := by
      rw [List.filter_eq_nil_iff]
      intro t ht
      have hu : t.userId = "u1" ∧ t.day = 1 := by
        simp only [demoPairDb, List.mem_cons, List.mem_singleton, List.not_mem_nil,
          or_false] at ht
        rcases ht with e | e <;> rw [e] <;> exact ⟨rfl, rfl⟩
      simp only [decide_eq_true_eq, hu.1, hu.2]
      exact fun hc => h ⟨hc.1.symm, hc.2.symm⟩
    rw [hb]
    exact List.Perm.refl _

/-! ## Reordering tasks -/

theorem applyReorderUpdate_frame (u : Json) (t : Task) :
    (applyReorderUpdate u t).id = t.id ∧ (applyReorderUpdate u t).userId = t.userId
      ∧ (applyReorderUpdate u t).title = t.title
      ∧ (applyReorderUpdate u t).description = t.description
      ∧ (applyReorderUpdate u t).createdAt = t.createdAt := by
  unfold applyReorderUpdate
  simp only
  split <;> split <;> (try split) <;> (try split) <;> simp

theorem applyBatch_frame (batch : List Json) (t : Task) :
    (applyBatch batch t).id = t.id ∧ (applyBatch batch t).userId = t.userId
      ∧ (applyBatch batch t).title = t.title
      ∧ (applyBatch batch t).description = t.description
      ∧ (applyBatch batch t).createdAt = t.createdAt := by
  induction batch generalizing t with
  | nil => simp [applyBatch]
  | cons u us ih =>
    rw [applyBatch]
    split
    · have h1 := ih (applyReorderUpdate u t)
      have h2 := applyReorderUpdate_frame u t
      simp only [h2.1, h2.2.1, h2.2.2.1, h2.2.2.2.1, h2.2.2.2.2] at h1
      exact h1
    · exact ih t

theorem strictEqualsString_eq (a b : String) (v : Option Json)
    (ha : strictEqualsString a v = true) (hb : strictEqualsString b v = true) : a = b := by
  unfold strictEqualsString at ha hb
  split at ha
  · simp only [decide_eq_true_eq] at ha hb
    rw [ha, hb]
  · exact absurd ha (by simp)

theorem any_reorderedTasks (uid : String) (batch : List Json) (l : List Task)
    (q : Task → Bool) (hq : ∀ a b : Task, a.id = b.id → a.userId = b.userId → q a = q b) :
    (reorderedTasks uid batch l).any q = l.any q := by
  induction l with
  | nil => rfl
  | cons t rest ih =>
    rw [reorderedTasks, List.any_cons, List.any_cons, ih]
    congr 1
    split
    · exact hq _ _ (applyBatch_frame batch t).1 (applyBatch_frame batch t).2.1
    · rfl

theorem reorderedTasks_single_of_none (uid : String) (u : Json) (l : List Task)
    (h : l.any (fun task => decide (task.userId = uid ∧
      strictEqualsString task.id (u.field "id") = true)) = false) :
    reorderedTasks uid [u] l = l := by
  induction l with
  | nil => rfl
  | cons t rest ih =>
    rw [List.any_cons, Bool.or_eq_false_iff] at h
    rw [reorderedTasks, ih h.2]
    congr 1
    have ht := h.1
    simp only [decide_eq_false_iff_not, not_and] at ht
    split
    · rename_i hc
      simp [applyBatch, ht hc.1]
    · rfl

theorem updateLast_eq_reorderedTasks (uid : String) (u : Json) (l : List Task) :
    updateLast (fun task => decide (task.userId = uid ∧
        strictEqualsString task.id (u.field "id") = true)) (applyReorderUpdate u) l =
      reorderedTasks uid [u] l := by
  induction l with
  | nil => rfl
  | cons t rest ih =>
    rw [updateLast, reorderedTasks]
    by_cases hany : rest.any (fun task => decide (task.userId = uid ∧
        strictEqualsString task.id (u.field "id") = true)) = true
    · rw [if_pos hany, ih]
      congr 1
      split
      · rename_i hc
        by_cases hs : strictEqualsString t.id (u.field "id") = true
        · exfalso
          apply hc.2
          rw [List.any_eq_true] at hany ⊢
          obtain ⟨x, hx, hpx⟩ := hany
          simp only [decide_eq_true_eq] at hpx
          exact ⟨x, hx, by simpa using ⟨hpx.1, strictEqualsString_eq _ _ _ hpx.2 hs⟩⟩
        · simp [applyBatch, hs]
      · rfl
    · rw [if_neg hany]
      have hany' : rest.any (fun task => decide (task.userId = uid ∧
          strictEqualsString task.id (u.field "id") = true)) = false := by simpa using hany
      rw [reorderedTasks_single_of_none uid u rest hany']
      by_cases hp : t.userId = uid ∧ strictEqualsString t.id (u.field "id") = true
      · have hcond : t.userId = uid ∧
            ¬ rest.any (fun x => decide (x.userId = uid ∧ x.id = t.id)) = true := by
          refine ⟨hp.1, fun hr => ?_⟩
          rw [List.any_eq_true] at hr
          obtain ⟨x, hx, hqx⟩ := hr
          simp only [decide_eq_true_eq] at hqx
          have : rest.any (fun task => decide (task.userId = uid ∧
              strictEqualsString task.id (u.field "id") = true)) = true := by
            rw [List.any_eq_true]
            exact ⟨x, hx, by simpa [hqx.2] using ⟨hqx.1, hp.2⟩⟩
          exact hany this
        rw [if_pos (show decide (t.userId = uid ∧
          strictEqualsString t.id (u.field "id") = true) = true by simpa using hp), if_pos hcond]
        simp [applyBatch, hp.2]
      · simp only [hp, decide_False, Bool.false_eq_true, if_false]
        congr 1
        split
        · rename_i hc
          have hs : ¬ strictEqualsString t.id (u.field "id") = true := fun hs => hp ⟨hc.1, hs⟩
          simp [applyBatch, hs]
        · rfl

theorem reorderedTasks_cons (uid : String) (u : Json) (us : List Json) (l : List Task) :
    reorderedTasks uid us (reorderedTasks uid [u] l) = reorderedTasks uid (u :: us) l := by
  induction l with
  | nil => rfl
  | cons t rest ih =>
    rw [reorderedTasks, reorderedTasks, reorderedTasks, ih]
    by_cases hc : t.userId = uid ∧
        ¬ rest.any (fun x => decide (x.userId = uid ∧ x.id = t.id)) = true
    · have hf := applyBatch_frame [u] t
      have hany := any_reorderedTasks uid [u] rest
        (fun x => decide (x.userId = uid ∧ x.id = t.id))
        (fun a b hid hu => by simp [hid, hu])
      simp only [if_pos hc, hf.1, hf.2.1, hany]
      rfl
    · have hany := any_reorderedTasks uid [u] rest
        (fun x => decide (x.userId = uid ∧ x.id = t.id))
        (fun a b hid hu => by simp [hid, hu])
      simp only [if_neg hc, hany]

theorem reorderedTasks_nil (uid : String) (l : List Task) : reorderedTasks uid [] l = l := by
  induction l with
  | nil => rfl
  | cons t rest ih =>
    rw [reorderedTasks, ih]
    simp [applyBatch]

/-- The loop of `handleReorderTasks` ends without exception exactly on a batch without
`null`, and then leaves `reorderedTasks`. -/
theorem reorderLoop_eq (uid : String) (batch : List Json) (l : List Task) :
    reorderLoop uid batch l =
      if batch.any Json.isNull then none else some (reorderedTasks uid batch l) := by
  induction batch generalizing l with
  | nil => simp [reorderLoop, reorderedTasks_nil]
  | cons u us ih =>
    rw [reorderLoop, List.any_cons]
    by_cases hn : u.isNull = true
    · simp [hn]
    · simp only [hn, Bool.false_eq_true, if_false, Bool.false_or]
      rw [updateLast_eq_reorderedTasks uid u l, ih, reorderedTasks_cons]

/-! ## Creating tasks and invariant I1 -/

theorem parseJsonBody_error (R : Runtime) (data : String) (r : Reply)
    (h : parseJsonBody R data = .error r) :
    r = .json 413 (errorBody "Requête trop volumineuse.") ∨
      r = .json 400 (errorBody "JSON invalide.") := by
  unfold parseJsonBody at h
  split at h
  · exact Or.inl (Except.error.inj h).symm
  · split at h
    · exact Except.noConfusion h
    · split at h
      · exact Except.noConfusion h
      · exact Or.inr (Except.error.inj h).symm

/-- A create request answered 201 carried a non-empty string title, a numeric day between 0
and 6 and a description that is absent, null or a string. -/
theorem handleCreateTask_created_inv (R : Runtime) (env : Env) (db : Database) (req : Request)
    (user : User) (b : Json)
    (hauth : authenticateRequest R env.now db req.authorization = .ok user)
    (hok : (handleCreateTask R env db req).reply = .json 201 b) :
    ∃ body title day trimmed, parseJsonBody R req.data = .ok body
      ∧ body.field "title" = some (.str title) ∧ title ≠ ""
      ∧ body.field "day" = some (.num day) ∧ (0 ≤ day ∧ day ≤ 6)
      ∧ optionalTrim (body.field "description") = some trimmed := by
  unfold handleCreateTask at hok
  rw [hauth] at hok
  simp only at hok
  cases hbody : parseJsonBody R req.data with
  | error r =>
    rw [hbody] at hok
    rcases parseJsonBody_error R req.data r hbody with e | e <;> rw [e] at hok <;>
      simp [errorBody] at hok
  | ok body =>
    rw [hbody] at hok
    simp only at hok
    split at hok
    · exact Reply.noConfusion hok
    · split at hok
      · rename_i title htitle
        split at hok
        · simp [errorBody] at hok
        · rename_i hne
          split at hok
          · rename_i day hday
            split at hok
            · simp [errorBody] at hok
            · rename_i hrange
              split at hok
              · exact Reply.noConfusion hok
              · rename_i trimmed htrim
                refine ⟨body, title, day, trimmed, rfl, htitle, hne, hday, ?_, htrim⟩
                constructor
                · exact not_lt.mp (fun h => hrange (Or.inl h))
                · exact not_lt.mp (fun h => hrange (Or.inr h))
          · simp [errorBody] at hok
      · simp [errorBody] at hok

/-- C16: a create request of an authenticated user for the day `day` that is answered 201
puts one more task into the bucket `(user, day)`; if the positions of that bucket were
exactly `0..n-1`, none twice, they are exactly `0..n` afterwards; every other bucket holds
the same tasks as before. -/
theorem handleCreateTask_keeps_gapFree (R : Runtime) (env : Env) (db : Database)
    (req : Request) (user : User) (body b : Json) (day : ℚ)
    (hauth : authenticateRequest R env.now db req.authorization = .ok user)
    (hbody : parseJsonBody R req.data = .ok body)
    (hday : body.field "day" = some (.num day))
    (hok : (handleCreateTask R env db req).reply = .json 201 b) :
    (bucketGapFree db user.id day →
        bucketGapFree (handleCreateTask R env db req).db user.id day)
    ∧ (bucket (handleCreateTask R env db req).db user.id day).length =
        (bucket db user.id day).length + 1
    ∧ ∀ userId' day', ¬ (userId' = user.id ∧ day' = day) →
        bucket (handleCreateTask R env db req).db userId' day' = bucket db userId' day' := by
  obtain ⟨body', title, day', trimmed, hbody', htitle, hne, hday', hrange, hdesc⟩ :=
    handleCreateTask_created_inv R env db req user b hauth hok
  have hb : body' = body := Except.ok.inj (hbody'.symm.trans hbody)
  subst hb
  have hd : day' = day := Json.num.inj (Option.some.inj (hday'.symm.trans hday))
  subst hd
  have heq := handleCreateTask_eq R env db req user body' title day' hauth hbody htitle hne hday
    hrange
  rw [hdesc] at heq
  simp only at heq
  refine ⟨?_, ?_, ?_⟩
  · intro hgap
    unfold bucketGapFree bucket at hgap ⊢
    rw [heq]
    simp only [List.filter_append, List.filter_cons, List.filter_nil, and_self, decide_True,
      if_true, List.map_append, List.map_cons, List.map_nil, List.length_append,
      List.length_singleton, List.range_succ]
    exact List.Perm.append hgap (List.Perm.refl _)
  · unfold bucket
    rw [heq]
    simp [List.filter_append]
  · intro userId' day'' hne'
    unfold bucket
    rw [heq]
    have hf : (fun task : Task => decide (task.userId = userId' ∧ task.day = day''))
        { id := env.uuid, userId := user.id, title := jsTrim title,
          description := match trimmed with
                         | some d => if d ≠ "" then d else ""
                         | none => ""
          day := day'
          position := ((db.tasks.filter
            (fun task => task.userId = user.id ∧ task.day = day')).length : ℚ)
          createdAt := env.isoNow } = false := by
      simp only [decide_eq_false_iff_not]
      exact fun hc => hne' ⟨hc.1.symm, hc.2.symm⟩
    simp only [List.filter_append, List.filter_cons, hf, List.filter_nil, List.append_nil,
      Bool.false_eq_true, if_false]

/-- Instance of `handleCreateTask_keeps_gapFree`: `demoUser`, whose bucket of day 2 holds one
task at position 0, creates a task on day 2; the bucket then holds positions 0 and 1. -/
theorem handleCreateTask_keeps_gapFree_witness :
    bucketGapFree demoDb demoUser.id 2
    ∧ bucketGapFree
        (handleCreateTask demoRuntime demoEnv demoDb
          (demoRequest (demoStringify demoCreateBody))).db demoUser.id 2 :=
  have hgap : bucketGapFree demoDb demoUser.id 2 := List.Perm.of_eq (by decide!)
  ⟨hgap,
    (handleCreateTask_keeps_gapFree demoRuntime demoEnv demoDb
      (demoRequest (demoStringify demoCreateBody)) demoUser demoCreateBody
      (.obj [("task", Task.toJson
        { id := "t9", userId := "u1", title := "Buy milk", description := "", day := 2,
          position := 1, createdAt := "2024-01-02T00:00:00.000Z" })])
      2 (by decide!) (by decide!) (by decide!) (by decide!)).1 hgap⟩

/-- What `handleReorderTasks` computes for an authenticated user on a body whose `tasks`
property is the array `batch`. -/
theorem handleReorderTasks_eq (R : Runtime) (env : Env) (db : Database) (req : Request)
    (user : User) (body : Json) (batch : List Json)
    (hauth : authenticateRequest R env.now db req.authorization = .ok user)
    (hbody : parseJsonBody R req.data = .ok body)
    (htasks : body.field "tasks" = some (.arr batch)) :
    handleReorderTasks R env db req =
      if batch.any Json.isNull then ⟨.threw, db⟩
      else ⟨.json 200 (.obj [("success", .bool true)]),
        { db with tasks := reorderedTasks user.id batch db.tasks }⟩ := by
  obtain ⟨kvs, rfl⟩ : ∃ kvs, body = .obj kvs := by
    cases body <;> simp [Json.field] at htasks
    exact ⟨_, rfl⟩
  unfold handleReorderTasks
  simp only [hauth, hbody, jsTruthy, Bool.not_true, Bool.false_eq_true, if_false, htasks,
    reorderLoop_eq]
  by_cases hn : batch.any Json.isNull = true
  · simp only [hn, if_true]
  · simp only [hn, Bool.false_eq_true, if_false]

theorem applyBatch_of_no_match (batch : List Json) (t : Task)
    (h : ∀ u ∈ batch, strictEqualsString t.id (u.field "id") = false) :
    applyBatch batch t = t := by
  induction batch with
  | nil => rfl
  | cons u us ih =>
    rw [applyBatch, h u (List.mem_cons_self _ _)]
    exact ih (fun v hv => h v (List.mem_cons_of_mem _ hv))

/-- The relation between a stored task and what a reorder request leaves in its place. -/
theorem reorderedTasks_frame (uid : String) (batch : List Json) (l : List Task) :
    List.Forall₂ (fun a b : Task => b.id = a.id ∧ b.userId = a.userId ∧ b.title = a.title
      ∧ b.description = a.description ∧ b.createdAt = a.createdAt
      ∧ (a.userId ≠ uid → b = a)
      ∧ ((∀ u ∈ batch, strictEqualsString a.id (u.field "id") = false) → b = a))
      l (reorderedTasks uid batch l) := by
  induction l with
  | nil => exact List.Forall₂.nil
  | cons t rest ih =>
    rw [reorderedTasks]
    refine List.Forall₂.cons ?_ ih
    split
    · rename_i hc
      have hf := applyBatch_frame batch t
      exact ⟨hf.1, hf.2.1, hf.2.2.1, hf.2.2.2.1, hf.2.2.2.2, fun hne => absurd hc.1 hne,
        fun hno => applyBatch_of_no_match batch t hno⟩
    · exact ⟨rfl, rfl, rfl, rfl, rfl, fun _ => rfl, fun _ => rfl⟩

theorem forall₂_same_of_refl {r : Task → Task → Prop} (hr : ∀ a, r a a) (l : List Task) :
    List.Forall₂ r l l := by
  induction l with
  | nil => exact List.Forall₂.nil
  | cons t rest ih => exact List.Forall₂.cons (hr t) ih


theorem strictEqualsString_iff (s : String) (v : Option Json) :
    strictEqualsString s v = true ↔ v = some (.str s) := by
  unfold strictEqualsString
  split
  · rename_i w
    simp only [decide_eq_true_eq, Option.some.injEq, Json.str.injEq]
    exact ⟨fun h => h ▸ rfl, fun h => h ▸ rfl⟩
  · rename_i hno
    constructor
    · intro h
      exact absurd h (by simp)
    · intro h
      exact absurd h (hno s)

theorem strictEqualsString_false_of_ne (s : String) (v : Option Json)
    (h : v ≠ some (.str s)) : strictEqualsString s v = false := by
  cases hc : strictEqualsString s v
  · rfl
  · exact absurd ((strictEqualsString_iff s v).mp hc) h

/-- On a batch in which no two updates carry the same string id, the update carrying the id
of a task is the only one that acts on it. -/
theorem applyBatch_distinct (batch : List Json) (t : Task) (u : Json)
    (hdistinct : batch.Pairwise
      (fun a b => ∀ i : String, a.field "id" = some (.str i) → b.field "id" ≠ some (.str i)))
    (hu : u ∈ batch) (hid : u.field "id" = some (.str t.id)) :
    applyBatch batch t = applyReorderUpdate u t := by
  induction batch generalizing t with
  | nil => simp at hu
  | cons v vs ih =>
    rw [List.pairwise_cons] at hdistinct
    rw [applyBatch]
    rcases List.mem_cons.mp hu with e | e
    · subst e
      rw [(strictEqualsString_iff t.id _).mpr hid]
      simp only [if_true]
      apply applyBatch_of_no_match
      intro w hw
      rw [(applyReorderUpdate_frame u t).1]
      exact strictEqualsString_false_of_ne _ _ (hdistinct.1 w hw t.id hid)
    · have hv : strictEqualsString t.id (v.field "id") = false := by
        apply strictEqualsString_false_of_ne
        intro hc
        exact hdistinct.1 u e t.id hc hid
      rw [hv]
      exact ih t hdistinct.2 e hid

theorem reorderedTasks_at (uid : String) (batch : List Json) (pre post : List Task)
    (t : Task) :
    ∃ pre', pre'.length = pre.length ∧
      reorderedTasks uid batch (pre ++ t :: post) =
        pre' ++ (if t.userId = uid ∧
            ¬ post.any (fun x => decide (x.userId = uid ∧ x.id = t.id)) = true
          then applyBatch batch t else t) :: reorderedTasks uid batch post := by
  induction pre with
  | nil => exact ⟨[], rfl, rfl⟩
  | cons a pre ih =>
    obtain ⟨pre', hlen, heq⟩ := ih
    refine ⟨(if a.userId = uid ∧
        ¬ (pre ++ t :: post).any (fun x => decide (x.userId = uid ∧ x.id = a.id)) = true
      then applyBatch batch a else a) :: pre', by simp [hlen], ?_⟩
    rw [List.cons_append, reorderedTasks, heq]
    rfl

theorem reorderedTasks_congr (uid : String) (A B : List Json) (l : List Task)
    (h : ∀ t ∈ l, t.userId = uid → applyBatch A t = applyBatch B t) :
    reorderedTasks uid A l = reorderedTasks uid B l := by
  induction l with
  | nil => rfl
  | cons t rest ih =>
    rw [reorderedTasks, reorderedTasks, ih (fun x hx => h x (List.mem_cons_of_mem _ hx))]
    congr 1
    split
    · rename_i hc
      exact h t (List.mem_cons_self _ _) hc.1
    · rfl

theorem applyBatch_append (A B : List Json) (t : Task) :
    applyBatch (A ++ B) t = applyBatch B (applyBatch A t) := by
  induction A generalizing t with
  | nil => rfl
  | cons u us ih => rw [List.cons_append, applyBatch, applyBatch, ih]

theorem applyReorderUpdate_valid (u : Json) (t : Task) (day position : ℚ)
    (hday : u.field "day" = some (.num day)) (h0 : 0 ≤ day) (h6 : day ≤ 6)
    (hpos : u.field "position" = some (.num position)) (hp : 0 ≤ position) :
    (applyReorderUpdate u t).day = day ∧ (applyReorderUpdate u t).position = position := by
  unfold applyReorderUpdate
  simp [hday, hpos, h0, h6, hp]

/-- C13: reorder frame.  Whatever the batch, the store after `handleReorderTasks` has the same
users and the same tasks in the same order, each with its id, owner, title, description and
creation time; a task owned by another user, and a task whose id no update of the batch
carries, is unchanged in every field, day and position included. -/
theorem handleReorderTasks_frame (R : Runtime) (env : Env) (db : Database) (req : Request)
    (user : User) (body : Json) (batch : List Json)
    (hauth : authenticateRequest R env.now db req.authorization = .ok user)
    (hbody : parseJsonBody R req.data = .ok body)
    (htasks : body.field "tasks" = some (.arr batch)) :
    (handleReorderTasks R env db req).db.users = db.users
    ∧ List.Forall₂ (fun a b : Task => b.id = a.id ∧ b.userId = a.userId ∧ b.title = a.title
        ∧ b.description = a.description ∧ b.createdAt = a.createdAt
        ∧ (a.userId ≠ user.id → b = a)
        ∧ ((∀ u ∈ batch, strictEqualsString a.id (u.field "id") = false) → b = a))
        db.tasks (handleReorderTasks R env db req).db.tasks := by
  rw [handleReorderTasks_eq R env db req user body batch hauth hbody htasks]
  split
  · exact ⟨rfl, forall₂_same_of_refl
      (fun a => ⟨rfl, rfl, rfl, rfl, rfl, fun _ => rfl, fun _ => rfl⟩) _⟩
  · exact ⟨rfl, reorderedTasks_frame user.id batch db.tasks⟩

/-- Instance of `handleReorderTasks_frame`: the batch that moves `t3` to day 3 leaves `t1` and
the task `t2` of `u2` as they are. -/
theorem handleReorderTasks_frame_witness :
    (handleReorderTasks demoRuntime demoEnv demoDb (demoReorderRequest demoMoveBatch)).db.users =
        demoDb.users
    ∧ List.Forall₂ (fun a b : Task => b.id = a.id ∧ b.userId = a.userId ∧ b.title = a.title
        ∧ b.description = a.description ∧ b.createdAt = a.createdAt
        ∧ (a.userId ≠ demoUser.id → b = a)
        ∧ ((∀ u ∈ demoMoveBatch, strictEqualsString a.id (u.field "id") = false) → b = a))
        demoDb.tasks
        (handleReorderTasks demoRuntime demoEnv demoDb
          (demoReorderRequest demoMoveBatch)).db.tasks :=
  handleReorderTasks_frame demoRuntime demoEnv demoDb (demoReorderRequest demoMoveBatch)
    demoUser (.obj [("tasks", .arr demoMoveBatch)]) demoMoveBatch (by decide!) (by decide!)
    (by decide!)

/-- C12: behaviour of `handleReorderTasks` on a batch in which no two updates carry the same
id.  When no element of the batch is `null`, the request is answered 200 `{success: true}`,
every update whose id is the id of a task of the user (the last stored one with that id), whose
day is a number between 0 and 6 and whose position is a number that is not negative leaves that
task with its day and position, and an update whose id is the id of no task of the user has
no effect: the loop leaves the list it leaves without that update.  When an element is `null`,
the read `update.id` throws and nothing is stored. -/
theorem handleReorderTasks_distinct_ids (R : Runtime) (env : Env) (db : Database)
    (req : Request) (user : User) (body : Json) (batch : List Json)
    (hauth : authenticateRequest R env.now db req.authorization = .ok user)
    (hbody : parseJsonBody R req.data = .ok body)
    (htasks : body.field "tasks" = some (.arr batch))
    (hdistinct : batch.Pairwise
      (fun a b => ∀ i : String, a.field "id" = some (.str i) → b.field "id" ≠ some (.str i))) :
    (batch.any Json.isNull = false →
      (handleReorderTasks R env db req).reply = .json 200 (.obj [("success", .bool true)])
      ∧ (∀ u ∈ batch, ∀ (i : String) (day position : ℚ),
          u.field "id" = some (.str i) → u.field "day" = some (.num day) → 0 ≤ day → day ≤ 6 →
          u.field "position" = some (.num position) → 0 ≤ position →
          ∀ pre t post, db.tasks = pre ++ t :: post → t.userId = user.id → t.id = i →
            (∀ x ∈ post, ¬ (x.userId = user.id ∧ x.id = i)) →
            ∃ t', (handleReorderTasks R env db req).db.tasks[pre.length]? = some t'
              ∧ t'.day = day ∧ t'.position = position ∧ t'.id = i ∧ t'.userId = user.id)
      ∧ (∀ b₁ u b₂, batch = b₁ ++ u :: b₂ →
          (∀ t ∈ db.tasks, t.userId = user.id →
            strictEqualsString t.id (u.field "id") = false) →
          reorderLoop user.id batch db.tasks = reorderLoop user.id (b₁ ++ b₂) db.tasks))
    ∧ (batch.any Json.isNull = true → handleReorderTasks R env db req = ⟨.threw, db⟩) := by
  have heq := handleReorderTasks_eq R env db req user body batch hauth hbody htasks
  refine ⟨fun hnn => ?_, fun hn => by rw [heq, if_pos hn]⟩
  rw [hnn] at heq
  simp only [Bool.false_eq_true, if_false] at heq
  refine ⟨by rw [heq], ?_, ?_⟩
  · intro u hu i day position hid hday h0 h6 hpos hp pre t post hl hown hti hlast
    obtain ⟨pre', hlen, hre⟩ := reorderedTasks_at user.id batch pre post t
    have hcond : t.userId = user.id ∧
        ¬ post.any (fun x => decide (x.userId = user.id ∧ x.id = t.id)) = true := by
      refine ⟨hown, fun hany => ?_⟩
      rw [List.any_eq_true] at hany
      obtain ⟨x, hx, hqx⟩ := hany
      simp only [decide_eq_true_eq] at hqx
      exact hlast x hx ⟨hqx.1, hqx.2.trans hti⟩
    rw [if_pos hcond, applyBatch_distinct batch t u hdistinct hu (hti ▸ hid)] at hre
    have hv := applyReorderUpdate_valid u t day position hday h0 h6 hpos hp
    have hf := applyReorderUpdate_frame u t
    refine ⟨applyReorderUpdate u t, ?_, hv.1, hv.2, hf.1.trans hti, hf.2.1.trans hown⟩
    rw [heq]
    simp only
    rw [hl, hre, ← hlen, List.getElem?_append_right (Nat.le_refl _)]
    simp
  · intro b₁ u b₂ hb hunknown
    have hnull : (b₁ ++ b₂).any Json.isNull = false := by
      rw [hb] at hnn
      simp only [List.any_append, List.any_cons, Bool.or_eq_false_iff] at hnn ⊢
      exact ⟨hnn.1, hnn.2.2⟩
    rw [reorderLoop_eq, reorderLoop_eq, hnn, hnull]
    simp only [Bool.false_eq_true, if_false, Option.some.injEq]
    apply reorderedTasks_congr
    intro t ht hu
    rw [hb, applyBatch_append, applyBatch_append, applyBatch]
    have hstep : strictEqualsString (applyBatch b₁ t).id (u.field "id") = false := by
      rw [(applyBatch_frame b₁ t).1]
      exact hunknown t ht hu
    rw [hstep]
    rfl

/-- Instances of `handleReorderTasks_distinct_ids`: the batch with one valid update for `t1`
is answered 200 and moves `t1` to day 3; the same batch followed by `null` throws and leaves
the store as it was. -/
theorem handleReorderTasks_distinct_ids_witness :
    handleReorderTasks demoRuntime demoEnv demoDb (demoReorderRequest demoNullBatch) =
      ⟨.threw, demoDb⟩
    ∧ (handleReorderTasks demoRuntime demoEnv demoDb (demoReorderRequest demoValidBatch)).reply
      = .json 200 (.obj [("success", .bool true)])
    ∧ (handleReorderTasks demoRuntime demoEnv demoDb
        (demoReorderRequest demoValidBatch)).db.tasks.map (fun t => (t.id, t.day, t.position))
      = [("t1", 3, 0), ("t2", 2, 0), ("t3", 0, 0)] :=
  ⟨(handleReorderTasks_distinct_ids demoRuntime demoEnv demoDb
      (demoReorderRequest demoNullBatch)
      demoUser (.obj [("tasks", .arr demoNullBatch)]) demoNullBatch (by decide!) (by decide!)
      (by decide!)
      (by
        unfold demoNullBatch
        rw [List.pairwise_cons]
        refine ⟨fun b hb i _ => ?_, List.pairwise_singleton _ _⟩
        rw [List.mem_singleton] at hb
        rw [hb]
        simp [Json.field])).2 (by decide!),
    ((handleReorderTasks_distinct_ids demoRuntime demoEnv demoDb
      (demoReorderRequest demoValidBatch)
      demoUser (.obj [("tasks", .arr demoValidBatch)]) demoValidBatch (by decide!) (by decide!)
      (by decide!) (List.pairwise_singleton _ _)).1 (by decide!)).1,
    by decide!⟩

theorem head?_append_getD (A B : List ℚ) (x : ℚ) :
    (A ++ B).head?.getD x = A.head?.getD (B.head?.getD x) := by
  cases A <;> rfl

theorem lastValid_cons (read : Json → Option ℚ) (id : String) (u : Json) (us : List Json)
    (x : ℚ) :
    (lastValid read id (u :: us)).getD x =
      (lastValid read id us).getD
        ((if strictEqualsString id (u.field "id") then read u else none).getD x) := by
  unfold lastValid
  rw [List.reverse_cons, List.filterMap_append, head?_append_getD]
  congr 1
  cases h : (if strictEqualsString id (u.field "id") = true then read u else none) <;>
    simp [List.filterMap, h]

theorem applyReorderUpdate_day (u : Json) (t : Task) :
    (applyReorderUpdate u t).day = (validDay u).getD t.day := by
  unfold applyReorderUpdate validDay
  simp only
  split <;> split <;> (try split) <;> (try split) <;> simp_all

theorem applyReorderUpdate_position (u : Json) (t : Task) :
    (applyReorderUpdate u t).position = (validPosition u).getD t.position := by
  unfold applyReorderUpdate validPosition
  simp only
  split <;> split <;> (try split) <;> (try split) <;> simp_all

theorem applyBatch_day (batch : List Json) (t : Task) :
    (applyBatch batch t).day = (lastValid validDay t.id batch).getD t.day := by
  induction batch generalizing t with
  | nil => rfl
  | cons u us ih =>
    rw [applyBatch, lastValid_cons]
    split
    · rw [ih, (applyReorderUpdate_frame u t).1, applyReorderUpdate_day]
    · rw [ih]
      rfl

theorem applyBatch_position (batch : List Json) (t : Task) :
    (applyBatch batch t).position = (lastValid validPosition t.id batch).getD t.position := by
  induction batch generalizing t with
  | nil => rfl
  | cons u us ih =>
    rw [applyBatch, lastValid_cons]
    split
    · rw [ih, (applyReorderUpdate_frame u t).1, applyReorderUpdate_position]
    · rw [ih]
      rfl

/-- C20: `handleReorderTasks` tests day and position of an update independently: an update
with a valid day and without valid position sets the day and keeps the position, and the other
way round.  After a batch without `null`, a task of the user (the last stored one with its id)
has the day of the last update carrying its id that has a valid day, its own day if there is
none, and likewise the position of the last such update that has a valid position.  When an
element of the batch is `null`, the read `update.id` throws and nothing is stored. -/
theorem handleReorderTasks_independent (R : Runtime) (env : Env) (db : Database)
    (req : Request) (user : User) (body : Json) (batch : List Json)
    (hauth : authenticateRequest R env.now db req.authorization = .ok user)
    (hbody : parseJsonBody R req.data = .ok body)
    (htasks : body.field "tasks" = some (.arr batch)) :
    (∀ (u : Json) (t : Task) (day : ℚ), validDay u = some day → validPosition u = none →
      (applyReorderUpdate u t).day = day ∧ (applyReorderUpdate u t).position = t.position)
    ∧ (∀ (u : Json) (t : Task) (position : ℚ), validDay u = none →
        validPosition u = some position →
        (applyReorderUpdate u t).day = t.day ∧ (applyReorderUpdate u t).position = position)
    ∧ (batch.any Json.isNull = false →
        ∀ pre t post, db.tasks = pre ++ t :: post → t.userId = user.id →
          (∀ x ∈ post, ¬ (x.userId = user.id ∧ x.id = t.id)) →
          ∃ t', (handleReorderTasks R env db req).db.tasks[pre.length]? = some t'
            ∧ t'.id = t.id
            ∧ t'.day = (lastValid validDay t.id batch).getD t.day
            ∧ t'.position = (lastValid validPosition t.id batch).getD t.position)
    ∧ (batch.any Json.isNull = true → handleReorderTasks R env db req = ⟨.threw, db⟩) := by
  have heq := handleReorderTasks_eq R env db req user body batch hauth hbody htasks
  refine ⟨fun u t day hd hp => ?_, fun u t position hd hp => ?_, fun hnn => ?_,
    fun hn => by rw [heq, if_pos hn]⟩
  · rw [applyReorderUpdate_day, applyReorderUpdate_position, hd, hp]
    exact ⟨rfl, rfl⟩
  · rw [applyReorderUpdate_day, applyReorderUpdate_position, hd, hp]
    exact ⟨rfl, rfl⟩
  · intro pre t post hl hown hlast
    rw [hnn] at heq
    simp only [Bool.false_eq_true, if_false] at heq
    obtain ⟨pre', hlen, hre⟩ := reorderedTasks_at user.id batch pre post t
    have hcond : t.userId = user.id ∧
        ¬ post.any (fun x => decide (x.userId = user.id ∧ x.id = t.id)) = true := by
      refine ⟨hown, fun hany => ?_⟩
      rw [List.any_eq_true] at hany
      obtain ⟨x, hx, hqx⟩ := hany
      simp only [decide_eq_true_eq] at hqx
      exact hlast x hx hqx
    rw [if_pos hcond] at hre
    refine ⟨applyBatch batch t, ?_, (applyBatch_frame batch t).1, applyBatch_day batch t,
      applyBatch_position batch t⟩
    rw [heq]
    simp only
    rw [hl, hre, ← hlen, List.getElem?_append_right (Nat.le_refl _)]
    simp

/-- Instance of `handleReorderTasks_independent`: after the batch `demoRepeatBatch` the task
`t1` has the day of the second update and the position of the third. -/
theorem handleReorderTasks_independent_witness :
    ∃ t', (handleReorderTasks demoRuntime demoEnv demoDb
        (demoReorderRequest demoRepeatBatch)).db.tasks[0]? = some t'
      ∧ t'.id = "t1" ∧ t'.day = 5 ∧ t'.position = 3 := by
  obtain ⟨t', h1, h2, h3, h4⟩ :=
    (handleReorderTasks_independent demoRuntime demoEnv demoDb
      (demoReorderRequest demoRepeatBatch) demoUser (.obj [("tasks", .arr demoRepeatBatch)])
      demoRepeatBatch (by decide!) (by decide!) (by decide!)).2.2.1 (by decide!) []
      { id := "t1", userId := "u1", title := "Write", description := "", day := 2,
        position := 0, createdAt := "2024-01-01T00:00:00.000Z" }
      [ { id := "t2", userId := "u2", title := "Read", description := "", day := 2,
          position := 0, createdAt := "2024-01-01T00:00:00.000Z" },
        { id := "t3", userId := "u1", title := "Walk", description := "", day := 0,
          position := 0, createdAt := "2024-01-01T00:00:00.000Z" } ]
      (by decide!) (by decide!) (by decide!)
  refine ⟨t', h1, h2, ?_, ?_⟩
  · rw [h3]
    decide!
  · rw [h4]
    decide!

/-! ## Updating tasks -/

/-- Decomposition of a list at the first element satisfying `p`, as `find` and the mutation
of its result see it. -/
theorem find_split (l : List Task) (p : Task → Bool) (f : Task → Task)
    (h : ∃ x ∈ l, p x = true) :
    ∃ pre t post, l = pre ++ t :: post ∧ p t = true ∧ (∀ x ∈ pre, p x = false) ∧
      l.find? p = some t ∧ updateFirst p f l = pre ++ f t :: post := by
  induction l with
  | nil => simp at h
  | cons a l ih =>
    by_cases ha : p a = true
    · exact ⟨[], a, l, rfl, ha, by simp, by simp [List.find?, ha], by simp [updateFirst, ha]⟩
    · have h' : ∃ x ∈ l, p x = true := by
        obtain ⟨x, hx, hpx⟩ := h
        rcases List.mem_cons.mp hx with e | e
        · exact absurd (e ▸ hpx) ha
        · exact ⟨x, e, hpx⟩
      obtain ⟨pre, t, post, hl, hpt, hpre, hfind, hupd⟩ := ih h'
      have ha' : p a = false := by simpa using ha
      refine ⟨a :: pre, t, post, by rw [hl]; rfl, hpt, ?_, ?_, ?_⟩
      · intro x hx
        rcases List.mem_cons.mp hx with e | e
        · rw [e]; exact ha'
        · exact hpre x e
      · simp [List.find?, ha', hfind]
      · simp [updateFirst, ha', hupd]

theorem title_step (body : Json) (x : Task) :
    (match body.field "title" with
      | some (.str title) => if title ≠ "" then { x with title := jsTrim title } else x
      | _ => x) =
      { x with title :=
          (match body.field "title" with
           | some (.str title) => if title ≠ "" then jsTrim title else x.title
           | _ => x.title) } := by
  split
  · split <;> rfl
  · rfl

theorem description_step (body : Json) (x : Task) :
    (match body.field "description" with
      | some (.str description) => { x with description := jsTrim description }
      | _ => x) =
      { x with description :=
          (match body.field "description" with
           | some (.str description) => jsTrim description
           | _ => x.description) } := by
  split <;> rfl

theorem day_step (body : Json) (x : Task) :
    (match body.field "day" with
      | some (.num day) => if day ≥ 0 ∧ day ≤ 6 then { x with day := day } else x
      | _ => x) = { x with day := (validDay body).getD x.day } := by
  unfold validDay
  cases body.field "day" with
  | none => rfl
  | some v =>
    cases v with
    | num d => by_cases h : d ≥ 0 ∧ d ≤ 6 <;> simp [h]
    | _ => rfl

theorem position_step (body : Json) (x : Task) :
    (match body.field "position" with
      | some (.num position) => if position ≥ 0 then { x with position := position } else x
      | _ => x) = { x with position := (validPosition body).getD x.position } := by
  unfold validPosition
  cases body.field "position" with
  | none => rfl
  | some v =>
    cases v with
    | num d => by_cases h : d ≥ 0 <;> simp [h]
    | _ => rfl

theorem applyTaskUpdate_fields (body : Json) (t : Task) :
    (applyTaskUpdate body t).id = t.id ∧ (applyTaskUpdate body t).userId = t.userId
    ∧ (applyTaskUpdate body t).createdAt = t.createdAt
    ∧ (applyTaskUpdate body t).title =
        (match body.field "title" with
         | some (.str title) => if title ≠ "" then jsTrim title else t.title
         | _ => t.title)
    ∧ (applyTaskUpdate body t).description =
        (match body.field "description" with
         | some (.str description) => jsTrim description
         | _ => t.description)
    ∧ (applyTaskUpdate body t).day = (validDay body).getD t.day
    ∧ (applyTaskUpdate body t).position = (validPosition body).getD t.position := by
  have heq : applyTaskUpdate body t =
      { id := t.id, userId := t.userId,
        title := (match body.field "title" with
                  | some (.str title) => if title ≠ "" then jsTrim title else t.title
                  | _ => t.title)
        description := (match body.field "description" with
                        | some (.str description) => jsTrim description
                        | _ => t.description)
        day := (validDay body).getD t.day
        position := (validPosition body).getD t.position
        createdAt := t.createdAt } := by
    unfold applyTaskUpdate
    lift_lets
    intro t1 t2 t3 t4
    have e1 : t1 = _ := title_step body t
    have e2 : t2 = _ := description_step body t1
    have e3 : t3 = _ := day_step body t2
    have e4 : t4 = _ := position_step body t3
    rw [e4, e3, e2, e1]
  rw [heq]
  exact ⟨rfl, rfl, rfl, rfl, rfl, rfl, rfl⟩

theorem find_split_update (l : List Task) (p : Task → Bool) (f : Task → Task)
    (pre : List Task) (t : Task) (post : List Task) (hl : l = pre ++ t :: post)
    (hpt : p t = true) (hpre : ∀ x ∈ pre, p x = false) :
    updateFirst p f l = pre ++ f t :: post := by
  subst hl
  induction pre with
  | nil => simp [updateFirst, hpt]
  | cons a pre ih =>
    have ha : p a = false := hpre a (List.mem_cons_self _ _)
    simp [updateFirst, ha, ih (fun x hx => hpre x (List.mem_cons_of_mem _ hx))]

theorem applyTaskUpdate_of_falsy (body : Json) (t : Task) (h : jsTruthy body = false) :
    applyTaskUpdate body t = t := by
  cases body <;> simp [jsTruthy] at h <;> rfl

/-- C14: for an authenticated user owning a task with the given id, `handleUpdateTask`
changes only that task, the first stored task with that id and owner: every other task keeps
its place and all its fields.  In that task the title becomes the trimmed `body.title` when
that is a non-empty string, the description the trimmed `body.description` when that is a
string, the day `body.day` when that is a number between 0 and 6, the position `body.position`
when that is a number that is not negative; every field not so provided, and id, owner and
creation time, keep their values.  A request whose body is not parsed changes nothing. -/
theorem handleUpdateTask_frame (R : Runtime) (env : Env) (db : Database) (req : Request)
    (user : User) (taskId : String)
    (hauth : authenticateRequest R env.now db req.authorization = .ok user)
    (hown : ∃ t ∈ db.tasks, t.id = taskId ∧ t.userId = user.id) :
    ∃ pre t post, db.tasks = pre ++ t :: post ∧ t.id = taskId ∧ t.userId = user.id
      ∧ (∀ x ∈ pre, ¬ (x.id = taskId ∧ x.userId = user.id))
      ∧ (∀ r, parseJsonBody R req.data = .error r →
          (handleUpdateTask R env db req taskId).db = db)
      ∧ (∀ body, parseJsonBody R req.data = .ok body →
          ∃ t', (handleUpdateTask R env db req taskId).db =
              { db with tasks := pre ++ t' :: post }
            ∧ t'.id = t.id ∧ t'.userId = t.userId ∧ t'.createdAt = t.createdAt
            ∧ t'.title =
                (match body.field "title" with
                 | some (.str title) => if title ≠ "" then jsTrim title else t.title
                 | _ => t.title)
            ∧ t'.description =
                (match body.field "description" with
                 | some (.str description) => jsTrim description
                 | _ => t.description)
            ∧ t'.day = (validDay body).getD t.day
            ∧ t'.position = (validPosition body).getD t.position) := by
  obtain ⟨pre, t, post, hl, hpt, hpre, hfind, hupd⟩ :=
    find_split db.tasks (fun item => decide (item.id = taskId ∧ item.userId = user.id))
      (fun task => task)
      (by
        obtain ⟨t, ht, h⟩ := hown
        exact ⟨t, ht, by simpa using h⟩)
  simp only [decide_eq_true_eq] at hpt
  refine ⟨pre, t, post, hl, hpt.1, hpt.2, fun x hx => by simpa using hpre x hx, ?_, ?_⟩
  · intro r hr
    unfold handleUpdateTask
    rw [hauth]
    simp only [hr]
  · intro body hbody
    have hf := applyTaskUpdate_fields body t
    refine ⟨applyTaskUpdate body t, ?_, hf⟩
    unfold handleUpdateTask
    rw [hauth]
    simp only [hbody]
    cases ht : jsTruthy body with
    | false =>
      simp only [Bool.not_false, if_true]
      rw [applyTaskUpdate_of_falsy body t ht, ← hl]
    | true =>
      simp only [Bool.not_true, Bool.false_eq_true, if_false, hfind]
      rw [find_split_update db.tasks _ (applyTaskUpdate body) pre t post hl
        (by simpa using hpt) hpre]

/-- Instance of `handleUpdateTask_frame`: the update request of `demoUser` for its task `t1`. -/
theorem handleUpdateTask_frame_witness :
    ∃ pre t post, demoDb.tasks = pre ++ t :: post ∧ t.id = "t1" ∧ t.userId = demoUser.id
      ∧ (∀ x ∈ pre, ¬ (x.id = "t1" ∧ x.userId = demoUser.id))
      ∧ (∀ r, parseJsonBody demoRuntime (demoRequest (demoStringify demoUpdateBody)).data =
            .error r →
          (handleUpdateTask demoRuntime demoEnv demoDb
            (demoRequest (demoStringify demoUpdateBody)) "t1").db = demoDb)
      ∧ (∀ body, parseJsonBody demoRuntime (demoRequest (demoStringify demoUpdateBody)).data =
            .ok body →
          ∃ t', (handleUpdateTask demoRuntime demoEnv demoDb
                (demoRequest (demoStringify demoUpdateBody)) "t1").db =
              { demoDb with tasks := pre ++ t' :: post }
            ∧ t'.id = t.id ∧ t'.userId = t.userId ∧ t'.createdAt = t.createdAt
            ∧ t'.title =
                (match body.field "title" with
                 | some (.str title) => if title ≠ "" then jsTrim title else t.title
                 | _ => t.title)
            ∧ t'.description =
                (match body.field "description" with
                 | some (.str description) => jsTrim description
                 | _ => t.description)
            ∧ t'.day = (validDay body).getD t.day
            ∧ t'.position = (validPosition body).getD t.position) :=
  handleUpdateTask_frame demoRuntime demoEnv demoDb (demoRequest (demoStringify demoUpdateBody))
    demoUser "t1" (by decide!) (by decide!)

/-! ## Range validity -/

theorem validDay_range (u : Json) (d : ℚ) (h : validDay u = some d) : 0 ≤ d ∧ d ≤ 6 := by
  unfold validDay at h
  split at h
  · split at h
    · rename_i hr
      rw [← Option.some.inj h]
      exact hr
    · exact Option.noConfusion h
  · exact Option.noConfusion h

theorem validPosition_nonneg (u : Json) (p : ℚ) (h : validPosition u = some p) : 0 ≤ p := by
  unfold validPosition at h
  split at h
  · split at h
    · rename_i hr
      rw [← Option.some.inj h]
      exact hr
    · exact Option.noConfusion h
  · exact Option.noConfusion h

theorem inRange_of_fields (u : Json) (t t' : Task) (ht : t.inRange)
    (hd : t'.day = (validDay u).getD t.day)
    (hp : t'.position = (validPosition u).getD t.position) : t'.inRange := by
  unfold Task.inRange at ht ⊢
  rw [hd, hp]
  cases h1 : validDay u with
  | none =>
    cases h2 : validPosition u with
    | none => exact ht
    | some p => exact ⟨ht.1, ht.2.1, validPosition_nonneg u p h2⟩
  | some d =>
    have hr := validDay_range u d h1
    cases h2 : validPosition u with
    | none => exact ⟨hr.1, hr.2, ht.2.2⟩
    | some p => exact ⟨hr.1, hr.2, validPosition_nonneg u p h2⟩

theorem applyTaskUpdate_inRange (body : Json) (t : Task) (ht : t.inRange) :
    (applyTaskUpdate body t).inRange :=
  inRange_of_fields body t _ ht (applyTaskUpdate_fields body t).2.2.2.2.2.1
    (applyTaskUpdate_fields body t).2.2.2.2.2.2

theorem applyReorderUpdate_inRange (u : Json) (t : Task) (ht : t.inRange) :
    (applyReorderUpdate u t).inRange :=
  inRange_of_fields u t _ ht (applyReorderUpdate_day u t) (applyReorderUpdate_position u t)

theorem applyBatch_inRange (batch : List Json) (t : Task) (ht : t.inRange) :
    (applyBatch batch t).inRange := by
  induction batch generalizing t with
  | nil => exact ht
  | cons u us ih =>
    rw [applyBatch]
    split
    · exact ih _ (applyReorderUpdate_inRange u t ht)
    · exact ih _ ht

theorem updateFirst_forall (p : Task → Bool) (f : Task → Task) (P : Task → Prop)
    (l : List Task) (hf : ∀ t, P t → P (f t)) (hl : ∀ t ∈ l, P t) :
    ∀ t ∈ updateFirst p f l, P t := by
  induction l with
  | nil => simp [updateFirst]
  | cons a l ih =>
    intro t ht
    rw [updateFirst] at ht
    split at ht
    · rcases List.mem_cons.mp ht with e | e
      · rw [e]
        exact hf a (hl a (List.mem_cons_self _ _))
      · exact hl t (List.mem_cons_of_mem _ e)
    · rcases List.mem_cons.mp ht with e | e
      · rw [e]
        exact hl a (List.mem_cons_self _ _)
      · exact ih (fun x hx => hl x (List.mem_cons_of_mem _ hx)) t e

theorem reorderedTasks_forall (uid : String) (batch : List Json) (P : Task → Prop)
    (l : List Task) (hf : ∀ t, P t → P (applyBatch batch t)) (hl : ∀ t ∈ l, P t) :
    ∀ t ∈ reorderedTasks uid batch l, P t := by
  induction l with
  | nil => simp [reorderedTasks]
  | cons a l ih =>
    intro t ht
    rw [reorderedTasks] at ht
    rcases List.mem_cons.mp ht with e | e
    · rw [e]
      split
      · exact hf a (hl a (List.mem_cons_self _ _))
      · exact hl a (List.mem_cons_self _ _)
    · exact ih (fun x hx => hl x (List.mem_cons_of_mem _ hx)) t e

/-- The store a create request leaves: the old one, or the old one with one task appended
whose day and position are in range. -/
theorem handleCreateTask_db (R : Runtime) (env : Env) (db : Database) (req : Request) :
    (handleCreateTask R env db req).db = db ∨
      ∃ task : Task, (handleCreateTask R env db req).db.tasks = db.tasks ++ [task]
        ∧ task.inRange := by
  unfold handleCreateTask
  split
  · exact Or.inl rfl
  · split
    · exact Or.inl rfl
    · simp only
      split
      · exact Or.inl rfl
      · split
        · split
          · exact Or.inl rfl
          · split
            · split
              · exact Or.inl rfl
              · rename_i hrange
                split
                · exact Or.inl rfl
                · refine Or.inr ⟨_, rfl, ?_⟩
                  unfold Task.inRange
                  simp only
                  exact ⟨not_lt.mp (fun h => hrange (Or.inl h)),
                    not_lt.mp (fun h => hrange (Or.inr h)), Nat.cast_nonneg _⟩
            · exact Or.inl rfl
        · exact Or.inl rfl

theorem handleUpdateTask_db (R : Runtime) (env : Env) (db : Database) (req : Request)
    (taskId : String) :
    (handleUpdateTask R env db req taskId).db = db ∨
      ∃ (p : Task → Bool) (body : Json),
        (handleUpdateTask R env db req taskId).db.tasks =
          updateFirst p (applyTaskUpdate body) db.tasks := by
  unfold handleUpdateTask
  split
  · exact Or.inl rfl
  · split
    · exact Or.inl rfl
    · simp only
      split
      · exact Or.inl rfl
      · split
        · exact Or.inl rfl
        · exact Or.inr ⟨_, _, rfl⟩

theorem handleDeleteTask_db (R : Runtime) (env : Env) (db : Database) (req : Request)
    (taskId : String) :
    (handleDeleteTask R env db req taskId).db = db ∨
      ∃ index, (handleDeleteTask R env db req taskId).db.tasks = db.tasks.eraseIdx index := by
  unfold handleDeleteTask
  split
  · exact Or.inl rfl
  · split
    · exact Or.inl rfl
    · exact Or.inr ⟨_, rfl⟩

theorem handleReorderTasks_db (R : Runtime) (env : Env) (db : Database) (req : Request) :
    (handleReorderTasks R env db req).db = db ∨
      ∃ (userId : String) (batch : List Json),
        (handleReorderTasks R env db req).db.tasks = reorderedTasks userId batch db.tasks := by
  unfold handleReorderTasks
  split
  · exact Or.inl rfl
  · split
    · exact Or.inl rfl
    · split
      · exact Or.inl rfl
      · split
        · split
          · exact Or.inl rfl
          · rename_i updated hloop
            rw [reorderLoop_eq] at hloop
            split at hloop
            · exact Option.noConfusion hloop
            · exact Or.inr ⟨_, _, (Option.some.inj hloop).symm⟩
        · exact Or.inl rfl

/-- C15 (as amended): range validity is an invariant of the server operations on bodies whose
numbers are finite: if every stored task has a day between 0 and 6 and a position that is not
negative, then after any create, update, delete or reorder request every stored task still
has.  The bodies are those of the model, in which a number is a rational: a body with a
number literal outside the double range, such as `1e400`, which `JSON.parse` reads as
`Infinity`, is not among them, and the statement says nothing about it. -/
theorem handlers_keep_range (R : Runtime) (env : Env) (db : Database) (req : Request)
    (taskId : String) (h : ∀ t ∈ db.tasks, t.inRange) :
    (∀ t ∈ (handleCreateTask R env db req).db.tasks, t.inRange)
    ∧ (∀ t ∈ (handleUpdateTask R env db req taskId).db.tasks, t.inRange)
    ∧ (∀ t ∈ (handleDeleteTask R env db req taskId).db.tasks, t.inRange)
    ∧ (∀ t ∈ (handleReorderTasks R env db req).db.tasks, t.inRange) := by
  refine ⟨?_, ?_, ?_, ?_⟩
  · rcases handleCreateTask_db R env db req with e | ⟨task, e, hr⟩
    · rw [e]
      exact h
    · rw [e]
      intro t ht
      rcases List.mem_append.mp ht with m | m
      · exact h t m
      · rw [List.mem_singleton.mp m]
        exact hr
  · rcases handleUpdateTask_db R env db req taskId with e | ⟨p, body, e⟩
    · rw [e]
      exact h
    · rw [e]
      exact updateFirst_forall p _ _ db.tasks (fun t => applyTaskUpdate_inRange body t) h
  · rcases handleDeleteTask_db R env db req taskId with e | ⟨index, e⟩
    · rw [e]
      exact h
    · rw [e]
      exact fun t ht => h t (List.mem_of_mem_eraseIdx ht)
  · rcases handleReorderTasks_db R env db req with e | ⟨userId, batch, e⟩
    · rw [e]
      exact h
    · rw [e]
      exact reorderedTasks_forall userId batch _ db.tasks
        (fun t => applyBatch_inRange batch t) h

/-- Instance of `handlers_keep_range`: the tasks of `demoDb` are in range, and so are the
tasks stored after a create request. -/
theorem handlers_keep_range_witness :
    (∀ t ∈ demoDb.tasks, t.inRange)
    ∧ ∀ t ∈ (handleCreateTask demoRuntime demoEnv demoDb
        (demoRequest (demoStringify demoBlankCreateBody))).db.tasks, t.inRange :=
  ⟨by decide!,
    (handlers_keep_range demoRuntime demoEnv demoDb
      (demoRequest (demoStringify demoBlankCreateBody)) "t1" (by decide!)).1⟩

/-- C15 (as stated) fails: every task of `demoDb` is well-formed, and the create request
with the title of one blank and the day 5/2 stores a task with an empty title and a day that
is not an integer: the title is tested before it is trimmed, and no handler tests that a day
or a position is an integer. -/
theorem create_breaks_wellFormed :
    (∀ t ∈ demoDb.tasks, t.wellFormed)
    ∧ (handleCreateTask demoRuntime demoEnv demoDb
        (demoRequest (demoStringify demoBlankCreateBody))).db.tasks =
        demoDb.tasks ++
          [{ id := "t9", userId := "u1", title := "", description := "", day := 5 / 2,
             position := 0, createdAt := "2024-01-02T00:00:00.000Z" }]
    ∧ ¬ (∀ t ∈ (handleCreateTask demoRuntime demoEnv demoDb
        (demoRequest (demoStringify demoBlankCreateBody))).db.tasks, t.wellFormed) :=
  ⟨by decide!, by decide!, by decide!⟩

/-! ## The client board: moving a task -/

theorem length_renumberFrom (k : Nat) (l : List Task) :
    (renumberFrom k l).length = l.length := by
  induction l generalizing k with
  | nil => rfl
  | cons t ts ih => simp [renumberFrom, ih]

theorem getElem?_renumberFrom (k : Nat) (l : List Task) (i : Nat) :
    (renumberFrom k l)[i]? = (l[i]?).map (fun t => { t with position := ((k + i : ℕ) : ℚ) }) := by
  induction l generalizing k i with
  | nil => simp [renumberFrom]
  | cons t ts ih =>
    cases i with
    | zero => simp [renumberFrom]
    | succ i =>
      simp only [renumberFrom, List.getElem?_cons_succ, ih]
      congr 1
      funext x
      congr 2
      omega

theorem map_withoutPosition_renumberFrom (k : Nat) (l : List Task) :
    (renumberFrom k l).map Task.withoutPosition = l.map Task.withoutPosition := by
  induction l generalizing k with
  | nil => rfl
  | cons t ts ih => simp [renumberFrom, ih, Task.withoutPosition]

theorem filter_renumberFrom (k : Nat) (l : List Task) (q : Task → Bool)
    (hq : ∀ (t : Task) (p : ℚ), q { t with position := p } = q t) :
    ((renumberFrom k l).filter q).map Task.withoutPosition =
      (l.filter q).map Task.withoutPosition := by
  induction l generalizing k with
  | nil => rfl
  | cons t ts ih =>
    rw [renumberFrom, List.filter_cons, List.filter_cons, hq]
    split
    · simp [ih, Task.withoutPosition]
    · exact ih _

theorem position_ge_of_mem_renumberFrom (k : Nat) (l : List Task) (t : Task)
    (h : t ∈ renumberFrom k l) : (k : ℚ) ≤ t.position := by
  induction l generalizing k with
  | nil => simp [renumberFrom] at h
  | cons a ts ih =>
    rw [renumberFrom] at h
    rcases List.mem_cons.mp h with e | e
    · rw [e]
    · have := ih (k + 1) e
      have hk : (k : ℚ) ≤ ((k + 1 : ℕ) : ℚ) := by exact_mod_cast Nat.le_succ k
      exact le_trans hk this

theorem sorted_renumberFrom (k : Nat) (l : List Task) :
    (renumberFrom k l).Sorted (fun a b => a.position - b.position ≤ 0) := by
  induction l generalizing k with
  | nil => exact List.sorted_nil
  | cons a ts ih =>
    rw [renumberFrom, List.sorted_cons]
    refine ⟨fun b hb => ?_, ih (k + 1)⟩
    have h1 := position_ge_of_mem_renumberFrom (k + 1) ts b hb
    have hk : (k : ℚ) ≤ ((k + 1 : ℕ) : ℚ) := by exact_mod_cast Nat.le_succ k
    simp only [sub_nonpos]
    exact le_trans hk h1

/-- After `normalizeBoard` the sort of `renderBoard` moves nothing. -/
theorem renderBoard_normalizeBoard (board : Board) :
    renderBoard (normalizeBoard board) = normalizeBoard board := by
  funext day
  exact List.Sorted.insertionSort_eq (sorted_renumberFrom 0 (board day))

theorem mem_DAYS (day : Fin 7) : day ∈ DAYS := by
  revert day
  decide

theorem mem_getAllTasks (board : Board) (t : Task) :
    t ∈ getAllTasks board ↔ ∃ day, t ∈ board day := by
  unfold getAllTasks
  rw [List.mem_flatMap]
  exact ⟨fun ⟨d, _, h⟩ => ⟨d, h⟩, fun ⟨d, h⟩ => ⟨d, mem_DAYS d, h⟩⟩


/-- What `moveTask` computes for a task that is on the board. -/
theorem moveTask_eq (board : Board) (taskId : String) (targetDay : Fin 7) (targetIndex : Int)
    (hpresent : ∃ day, ∃ t ∈ board day, t.id = taskId) :
    ∃ (sourceDay : Fin 7) (pre : List Task) (task : Task) (post : List Task),
      board sourceDay = pre ++ task :: post ∧ task.id = taskId ∧ (∀ x ∈ pre, x.id ≠ taskId)
      ∧ moveTask board taskId targetDay targetIndex =
          normalizeBoard
            (Function.update (Function.update board sourceDay (pre ++ post)) targetDay
              (((Function.update board sourceDay (pre ++ post)) targetDay).take
                  (min (max targetIndex 0)
                    (((Function.update board sourceDay (pre ++ post)) targetDay).length : Int)).toNat
                ++ { task with day := ((targetDay : ℕ) : ℚ) } ::
                  ((Function.update board sourceDay (pre ++ post)) targetDay).drop
                    (min (max targetIndex 0)
                      (((Function.update board sourceDay (pre ++ post)) targetDay).length
                        : Int)).toNat)) := by
  cases hfd : findTaskDay board taskId with
  | none =>
    exfalso
    unfold findTaskDay at hfd
    rw [List.find?_eq_none] at hfd
    obtain ⟨day, t, ht, hid⟩ := hpresent
    apply hfd day (mem_DAYS day)
    rw [List.any_eq_true]
    exact ⟨t, ht, by simpa using hid⟩
  | some sourceDay =>
    have hany : (board sourceDay).any (fun task => decide (task.id = taskId)) = true := by
      unfold findTaskDay at hfd
      have h := List.find?_some hfd
      exact h
    rw [List.any_eq_true] at hany
    obtain ⟨pre, task, post, hl, hpt, hpre, hidx⟩ :=
      findIdx_split (board sourceDay) (fun task => decide (task.id = taskId)) hany
    simp only [decide_eq_true_eq] at hpt
    refine ⟨sourceDay, pre, task, post, hl, hpt, fun x hx => by simpa using hpre x hx, ?_⟩
    have hget : (board sourceDay)[pre.length]? = some task := by
      rw [hl, List.getElem?_append_right (Nat.le_refl _)]
      simp
    unfold moveTask
    simp only [hfd, hidx, hget]
    rw [renderBoard_normalizeBoard]
    have herase : (board sourceDay).eraseIdx pre.length = pre ++ post := by
      rw [hl, eraseIdx_split]
    rw [herase]

/-- Distinct ids on the board: every day list has distinct ids and two different days share
none. -/
theorem nodup_days (board : Board) (hnodup : ((getAllTasks board).map Task.id).Nodup) :
    (∀ d, ((board d).map Task.id).Nodup)
    ∧ ∀ d d2, d ≠ d2 → ∀ x ∈ board d, ∀ y ∈ board d2, x.id ≠ y.id := by
  unfold getAllTasks at hnodup
  rw [List.map_flatMap, List.nodup_flatMap] at hnodup
  refine ⟨fun d => hnodup.1 d (mem_DAYS d), fun d d2 hne x hx y hy hxy => ?_⟩
  have hsymm : Symmetric (Function.onFun List.Disjoint
      (fun a : Fin 7 => List.map Task.id (board a))) :=
    fun a b h => List.Disjoint.symm h
  have hdis := List.Pairwise.forall hsymm hnodup.2 (mem_DAYS d) (mem_DAYS d2) hne
  exact hdis (List.mem_map_of_mem Task.id hx) (hxy ▸ List.mem_map_of_mem Task.id hy)

/-- With distinct ids, taking the task out of its list is the same as filtering its id out of
every list. -/
theorem others_eq (board : Board) (taskId : String) (sourceDay : Fin 7)
    (pre : List Task) (task : Task) (post : List Task)
    (hnodup : ((getAllTasks board).map Task.id).Nodup)
    (hl : board sourceDay = pre ++ task :: post) (hid : task.id = taskId) :
    Function.update board sourceDay (pre ++ post)
      = fun d => (board d).filter (fun t => t.id ≠ taskId) := by
  obtain ⟨hin, hacross⟩ := nodup_days board hnodup
  have htask : task ∈ board sourceDay := by rw [hl]; simp
  funext d
  rw [Function.update_apply]
  split
  · rename_i hd
    subst hd
    have hnd := hin d
    rw [hl, List.map_append, List.map_cons, List.nodup_append, List.nodup_cons] at hnd
    have hpre : ∀ x ∈ pre, x.id ≠ taskId := fun x hx hx2 =>
      hnd.2.2 (List.mem_map_of_mem Task.id hx) (by rw [hx2, ← hid]; simp)
    have hpost : ∀ x ∈ post, x.id ≠ taskId := fun x hx hx2 =>
      hnd.2.1.1 (by rw [hid, ← hx2]; exact List.mem_map_of_mem Task.id hx)
    rw [hl, List.filter_append, List.filter_cons]
    have e1 : pre.filter (fun t => decide (t.id ≠ taskId)) = pre :=
      List.filter_eq_self.2 (fun a ha => by simpa using hpre a ha)
    have e2 : post.filter (fun t => decide (t.id ≠ taskId)) = post :=
      List.filter_eq_self.2 (fun a ha => by simpa using hpost a ha)
    rw [e1, e2]
    simp [hid]
  · rename_i hd
    symm
    apply List.filter_eq_self.2
    intro a ha
    have := hacross d sourceDay hd a ha task htask
    rw [hid] at this
    simpa using this

/-- The board after a move, for a present task on a board with distinct ids: the other tasks
of each day keep their list, the task goes to the clamped index of the target day, and every
list is renumbered. -/
theorem moveTask_eq_others (board : Board) (taskId : String) (targetDay : Fin 7)
    (targetIndex : Int)
    (hnodup : ((getAllTasks board).map Task.id).Nodup)
    (hpresent : taskId ∈ (getAllTasks board).map Task.id) :
    ∃ task, task ∈ getAllTasks board ∧ task.id = taskId
      ∧ ∀ d, moveTask board taskId targetDay targetIndex d =
          renumberFrom 0
            (if d = targetDay then
              ((board d).filter (fun t => t.id ≠ taskId)).take
                  (min (max targetIndex 0)
                    (((board targetDay).filter (fun t => t.id ≠ taskId)).length : Int)).toNat
                ++ { task with day := ((targetDay : ℕ) : ℚ) } ::
                  ((board d).filter (fun t => t.id ≠ taskId)).drop
                    (min (max targetIndex 0)
                      (((board targetDay).filter (fun t => t.id ≠ taskId)).length : Int)).toNat
            else (board d).filter (fun t => t.id ≠ taskId)) := by
  have hpresent2 : ∃ day, ∃ t ∈ board day, t.id = taskId := by
    rw [List.mem_map] at hpresent
    obtain ⟨t, ht, hid⟩ := hpresent
    obtain ⟨day, hday⟩ := (mem_getAllTasks board t).1 ht
    exact ⟨day, t, hday, hid⟩
  obtain ⟨sourceDay, pre, task, post, hl, hid, -, hmove⟩ :=
    moveTask_eq board taskId targetDay targetIndex hpresent2
  refine ⟨task, (mem_getAllTasks board task).2 ⟨sourceDay, by rw [hl]; simp⟩, hid, fun d => ?_⟩
  rw [hmove, others_eq board taskId sourceDay pre task post hnodup hl hid]
  unfold normalizeBoard
  rw [Function.update_apply]
  split
  · rename_i hd
    subst hd
    rfl
  · rfl

theorem clamp_le (targetIndex : Int) (n : ℕ) :
    (min (max targetIndex 0) (n : Int)).toNat ≤ n := by
  omega

theorem flatMap_congr_mem {α β : Type} (l : List α) (f g : α → List β)
    (h : ∀ a ∈ l, f a = g a) : l.flatMap f = l.flatMap g := by
  induction l with
  | nil => rfl
  | cons a l ih =>
    rw [List.flatMap_cons, List.flatMap_cons, h a (List.mem_cons_self a l),
      ih (fun b hb => h b (List.mem_cons_of_mem a hb))]

/-- Adding one element to the list of one day adds it once to the concatenation. -/
theorem flatMap_insert_perm {β : Type} (l : List (Fin 7)) (a : Fin 7) (x : β)
    (g : Fin 7 → List β) (hl : l.Nodup) (ha : a ∈ l) :
    (l.flatMap (fun d => if d = a then x :: g d else g d)).Perm (x :: l.flatMap g) := by
  induction l with
  | nil => simp at ha
  | cons b l ih =>
    rw [List.nodup_cons] at hl
    rw [List.flatMap_cons, List.flatMap_cons]
    by_cases hb : b = a
    · subst hb
      rw [if_pos rfl, flatMap_congr_mem l (fun d => if d = b then x :: g d else g d) g
        (fun d hd => if_neg (fun h : d = b => hl.1 (h ▸ hd)))]
      exact List.Perm.refl _
    · rw [if_neg hb]
      have hmem : a ∈ l := by
        rcases List.mem_cons.mp ha with h | h
        · exact absurd h.symm hb
        · exact h
      exact (List.Perm.append_left (g b) (ih hl.2 hmem)).trans List.perm_middle

theorem map_move_of_absent (l : List Task) (taskId : String) (c : ℚ)
    (h : ∀ x ∈ l, x.id ≠ taskId) :
    l.map (fun t => (if t.id = taskId then { t with day := c } else t).withoutPosition)
      = (l.filter (fun t => t.id ≠ taskId)).map Task.withoutPosition := by
  rw [List.filter_eq_self.2 (fun a ha => by simpa using h a ha)]
  apply List.map_congr_left
  intro a ha
  rw [if_neg (h a ha)]

theorem map_move_perm (l : List Task) (task : Task) (taskId : String) (c : ℚ)
    (hnd : (l.map Task.id).Nodup) (hmem : task ∈ l) (hid : task.id = taskId) :
    (l.map (fun t => (if t.id = taskId then { t with day := c } else t).withoutPosition)).Perm
      (({ task with day := c } : Task).withoutPosition
        :: (l.filter (fun t => t.id ≠ taskId)).map Task.withoutPosition) := by
  induction l with
  | nil => simp at hmem
  | cons a l ih =>
    rw [List.map_cons, List.nodup_cons] at hnd
    by_cases ha : a.id = taskId
    · have habs : ∀ x ∈ l, x.id ≠ taskId := fun x hx hx2 =>
        hnd.1 (by rw [ha, ← hx2]; exact List.mem_map_of_mem Task.id hx)
      have hat : task = a := by
        rcases List.mem_cons.mp hmem with h | h
        · exact h
        · exact absurd hid (habs task h)
      subst hat
      rw [List.map_cons, if_pos ha, map_move_of_absent l taskId c habs, List.filter_cons]
      simp [ha]
    · have hmem2 : task ∈ l := by
        rcases List.mem_cons.mp hmem with h | h
        · exact absurd (h ▸ hid) ha
        · exact h
      rw [List.map_cons, if_neg ha, List.filter_cons]
      simp only [ne_eq, ha, not_false_eq_true, decide_True, if_true, List.map_cons]
      exact ((ih hnd.2 hmem2).cons _).trans (List.Perm.swap _ _ _)

theorem DAYS_nodup : DAYS.Nodup := by
  decide

/-- C17: on a board whose tasks have pairwise distinct ids, moving a task that is on the
board keeps the same tasks (up to the renumbered positions and the day of the moved task),
puts the moved task, with its day set to the target day, at index
min(max(targetIndex, 0), length of the destination list after removal) of the target day,
keeps the order of the other tasks of every day, and leaves every task with its index as
position. -/
theorem moveTask_spec (board : Board) (taskId : String) (targetDay : Fin 7)
    (targetIndex : Int)
    (hnodup : ((getAllTasks board).map Task.id).Nodup)
    (hpresent : taskId ∈ (getAllTasks board).map Task.id) :
    ∃ (task : Task) (k : ℕ),
      task ∈ getAllTasks board ∧ task.id = taskId
      ∧ k = (min (max targetIndex 0)
              (((board targetDay).filter (fun t => t.id ≠ taskId)).length : Int)).toNat
      ∧ ((getAllTasks (moveTask board taskId targetDay targetIndex)).map
            Task.withoutPosition).Perm
          ((getAllTasks board).map (fun t =>
            (if t.id = taskId then { t with day := ((targetDay : ℕ) : ℚ) }
              else t).withoutPosition))
      ∧ (moveTask board taskId targetDay targetIndex targetDay)[k]?
          = some { task with day := ((targetDay : ℕ) : ℚ), position := (k : ℚ) }
      ∧ (∀ d, ((moveTask board taskId targetDay targetIndex d).filter
            (fun t => t.id ≠ taskId)).map Task.withoutPosition
          = ((board d).filter (fun t => t.id ≠ taskId)).map Task.withoutPosition)
      ∧ (∀ (d : Fin 7) (i : ℕ) (t : Task),
          (moveTask board taskId targetDay targetIndex d)[i]? = some t →
          t.position = (i : ℚ)) := by
  obtain ⟨task, hmem, hid, hafter⟩ :=
    moveTask_eq_others board taskId targetDay targetIndex hnodup hpresent
  obtain ⟨hin, hacross⟩ := nodup_days board hnodup
  obtain ⟨sourceDay, hsource⟩ := (mem_getAllTasks board task).1 hmem
  have hk := clamp_le targetIndex ((board targetDay).filter (fun t => t.id ≠ taskId)).length
  refine ⟨task, _, hmem, hid, rfl, ?_, ?_, ?_, ?_⟩
  · -- the same tasks
    have hleft : ((getAllTasks (moveTask board taskId targetDay targetIndex)).map
        Task.withoutPosition).Perm
        (({ task with day := ((targetDay : ℕ) : ℚ) } : Task).withoutPosition ::
          DAYS.flatMap (fun d =>
            ((board d).filter (fun t => t.id ≠ taskId)).map Task.withoutPosition)) := by
      unfold getAllTasks
      rw [List.map_flatMap]
      refine List.Perm.trans (List.Perm.flatMap_left DAYS (fun d _ => ?_))
        (flatMap_insert_perm DAYS targetDay _ _ DAYS_nodup (mem_DAYS targetDay))
      rw [hafter d, map_withoutPosition_renumberFrom]
      by_cases hd : d = targetDay
      · subst hd
        rw [if_pos rfl, if_pos rfl, List.map_append, List.map_cons]
        refine List.perm_middle.trans ?_
        rw [← List.map_append, List.take_append_drop]
      · rw [if_neg hd, if_neg hd]
    have hright : ((getAllTasks board).map (fun t =>
        (if t.id = taskId then { t with day := ((targetDay : ℕ) : ℚ) }
          else t).withoutPosition)).Perm
        (({ task with day := ((targetDay : ℕ) : ℚ) } : Task).withoutPosition ::
          DAYS.flatMap (fun d =>
            ((board d).filter (fun t => t.id ≠ taskId)).map Task.withoutPosition)) := by
      unfold getAllTasks
      rw [List.map_flatMap]
      refine List.Perm.trans (List.Perm.flatMap_left DAYS (fun d _ => ?_))
        (flatMap_insert_perm DAYS sourceDay _ _ DAYS_nodup (mem_DAYS sourceDay))
      by_cases hd : d = sourceDay
      · subst hd
        rw [if_pos rfl]
        exact map_move_perm (board d) task taskId _ (hin d) hsource hid
      · rw [if_neg hd, map_move_of_absent (board d) taskId _
          (fun x hx => hid ▸ hacross d sourceDay hd x hx task hsource)]
    exact hleft.trans hright.symm
  · -- the moved task
    rw [hafter targetDay, if_pos rfl, getElem?_renumberFrom,
      List.getElem?_append_right (by rw [List.length_take]; omega)]
    simp [List.length_take, Nat.min_eq_left hk]
  · -- the other tasks
    intro d
    rw [hafter d, filter_renumberFrom 0 _ (fun t => decide (t.id ≠ taskId)) (fun _ _ => rfl)]
    by_cases hd : d = targetDay
    · subst hd
      rw [if_pos rfl, List.filter_append, List.filter_cons]
      simp only [hid, ne_eq, not_true_eq_false, decide_False, Bool.false_eq_true, if_false]
      rw [← List.filter_append, List.take_append_drop, List.filter_filter]
      simp
    · rw [if_neg hd, List.filter_filter]
      simp
  · -- positions
    intro d i t ht
    rw [hafter d, getElem?_renumberFrom] at ht
    cases hx : (if d = targetDay then _ else _ : List Task)[i]? with
    | none => rw [hx] at ht; simp at ht
    | some x =>
      rw [hx] at ht
      simp only [Option.map_some', Option.some.injEq] at ht
      rw [← ht]
      simp

theorem moveTask_spec_witness :
    ((getAllTasks demoWeekBoard).map Task.id).Nodup
    ∧ "a" ∈ (getAllTasks demoWeekBoard).map Task.id
    ∧ (moveTask demoWeekBoard "a" 3 5 3).map Task.id = ["e", "a"]
    ∧ (moveTask demoWeekBoard "a" 3 5 1).map Task.id = ["b", "c"]
    ∧ (moveTask demoWeekBoard "a" 3 5 1).map Task.position = [0, 1]
    ∧ ∃ (task : Task) (k : ℕ),
      task ∈ getAllTasks demoWeekBoard ∧ task.id = "a"
      ∧ k = (min (max (5 : Int) 0)
              (((demoWeekBoard 3).filter (fun t => t.id ≠ "a")).length : Int)).toNat
      ∧ ((getAllTasks (moveTask demoWeekBoard "a" 3 5)).map
            Task.withoutPosition).Perm
          ((getAllTasks demoWeekBoard).map (fun t =>
            (if t.id = "a" then { t with day := (((3 : Fin 7) : ℕ) : ℚ) }
              else t).withoutPosition))
      ∧ (moveTask demoWeekBoard "a" 3 5 3)[k]?
          = some { task with day := (((3 : Fin 7) : ℕ) : ℚ), position := (k : ℚ) }
      ∧ (∀ d, ((moveTask demoWeekBoard "a" 3 5 d).filter
            (fun t => t.id ≠ "a")).map Task.withoutPosition
          = ((demoWeekBoard d).filter (fun t => t.id ≠ "a")).map Task.withoutPosition)
      ∧ (∀ (d : Fin 7) (i : ℕ) (t : Task),
          (moveTask demoWeekBoard "a" 3 5 d)[i]? = some t →
          t.position = (i : ℚ)) :=
  ⟨by decide!, by decide!, by decide!, by decide!, by decide!,
    moveTask_spec demoWeekBoard "a" 3 5 (by decide!) (by decide!)⟩

/-! ## The client batch and invariant I1 -/

theorem map_id_renumberFrom (k : Nat) (l : List Task) :
    (renumberFrom k l).map Task.id = l.map Task.id := by
  induction l generalizing k with
  | nil => rfl
  | cons t ts ih => simp [renumberFrom, ih]

/-- With distinct ids among the tasks of the user, the batch acts on every task of the
user. -/
theorem reorderedTasks_of_nodup (uid : String) (batch : List Json) (l : List Task)
    (hnd : ((l.filter (fun t => t.userId = uid)).map Task.id).Nodup) :
    reorderedTasks uid batch l =
      l.map (fun t => if t.userId = uid then applyBatch batch t else t) := by
  induction l with
  | nil => rfl
  | cons t rest ih =>
    rw [reorderedTasks, List.map_cons]
    by_cases ht : t.userId = uid
    · rw [List.filter_cons, if_pos (by simpa using ht), List.map_cons, List.nodup_cons] at hnd
      rw [ih hnd.2]
      have hno : ¬ rest.any (fun x => decide (x.userId = uid ∧ x.id = t.id)) = true := by
        intro hc
        rw [List.any_eq_true] at hc
        obtain ⟨x, hx, hp⟩ := hc
        simp only [decide_eq_true_eq] at hp
        apply hnd.1
        rw [← hp.2]
        exact List.mem_map_of_mem Task.id (List.mem_filter.2 ⟨hx, by simpa using hp.1⟩)
      rw [if_pos ⟨ht, hno⟩, if_pos ht]
    · rw [List.filter_cons, if_neg (by simpa using ht)] at hnd
      rw [ih hnd, if_neg (fun h => ht h.1), if_neg ht]

/-- Every task with a day of the week is in the list of exactly one day. -/
theorem flatMap_days_perm (U : List Task)
    (hdays : ∀ t ∈ U, ∃ d : Fin 7, t.day = ((d : ℕ) : ℚ)) :
    (DAYS.flatMap (fun d => U.filter (fun t => t.day = ((d : ℕ) : ℚ)))).Perm U := by
  induction U with
  | nil =>
    simp only [List.filter_nil]
    rw [show DAYS.flatMap (fun _ => ([] : List Task)) = [] by decide]
  | cons t U ih =>
    obtain ⟨d0, hd0⟩ := hdays t (List.mem_cons_self t U)
    have hfun : (fun d : Fin 7 => (t :: U).filter (fun x => decide (x.day = ((d : ℕ) : ℚ))))
        = fun d => if d = d0 then t :: U.filter (fun x => decide (x.day = ((d : ℕ) : ℚ)))
            else U.filter (fun x => decide (x.day = ((d : ℕ) : ℚ))) := by
      funext d
      rw [List.filter_cons]
      by_cases hd : d = d0
      · subst hd
        simp [hd0]
      · have hne : ¬ t.day = ((d : ℕ) : ℚ) := by
          rw [hd0]
          intro hc
          apply hd
          have : (d0 : ℕ) = (d : ℕ) := by exact_mod_cast hc
          exact (Fin.ext this).symm
        simp [hne, hd]
    rw [hfun]
    exact (flatMap_insert_perm DAYS d0 t _ DAYS_nodup (mem_DAYS d0)).trans
      ((ih (fun x hx => hdays x (List.mem_cons_of_mem t hx))).cons t)

/-- No two updates built from tasks with distinct ids carry the same id. -/
theorem clientBatch_pairwise (L : List Task) (hnd : (L.map Task.id).Nodup) :
    (L.map (fun task : Task => Json.obj [("id", .str task.id), ("day", .num task.day),
        ("position", .num task.position)])).Pairwise
      (fun a b => ∀ i : String, a.field "id" = some (.str i) → b.field "id" ≠ some (.str i)) := by
  rw [List.pairwise_map]
  unfold List.Nodup at hnd
  rw [List.pairwise_map] at hnd
  refine hnd.imp ?_
  intro a b hab i ha hb
  simp [Json.field] at ha hb
  exact hab (ha.trans hb.symm)

/-- The batch built from tasks with distinct ids gives a stored task the day and the position
of the task with its id, when these are valid. -/
theorem applyBatch_clientBatch (L : List Task) (hnd : (L.map Task.id).Nodup) (x t : Task)
    (hx : x ∈ L) (hid : x.id = t.id) (h0 : 0 ≤ x.day) (h6 : x.day ≤ 6)
    (hp : 0 ≤ x.position) :
    (applyBatch (L.map (fun task : Task => Json.obj [("id", .str task.id),
        ("day", .num task.day), ("position", .num task.position)])) t).day = x.day
    ∧ (applyBatch (L.map (fun task : Task => Json.obj [("id", .str task.id),
        ("day", .num task.day), ("position", .num task.position)])) t).position
        = x.position := by
  rw [applyBatch_distinct _ t
    (Json.obj [("id", .str x.id), ("day", .num x.day), ("position", .num x.position)])
    (clientBatch_pairwise L hnd) (List.mem_map.2 ⟨x, hx, rfl⟩) (by simp [Json.field, hid])]
  exact applyReorderUpdate_valid _ t x.day x.position rfl h0 h6 rfl hp

theorem getAllTasks_normalizeBoard_ids (board : Board) :
    (getAllTasks (normalizeBoard board)).map Task.id = (getAllTasks board).map Task.id := by
  unfold getAllTasks normalizeBoard
  rw [List.map_flatMap, List.map_flatMap]
  exact flatMap_congr_mem DAYS _ _ (fun d _ => map_id_renumberFrom 0 (board d))

/-- A board that holds the tasks `U`, each in the list of its day, holds them all. -/
theorem getAllTasks_perm (U : List Task) (board : Board)
    (hdays : ∀ t ∈ U, ∃ d : Fin 7, t.day = ((d : ℕ) : ℚ))
    (hboard : ∀ d : Fin 7, (board d).Perm (U.filter (fun t => t.day = ((d : ℕ) : ℚ)))) :
    (getAllTasks board).Perm U :=
  (List.Perm.flatMap_left DAYS (fun d _ => hboard d)).trans (flatMap_days_perm U hdays)

/-- What the batch of `persistReorder` does to a task of the board: the day stays and the
position becomes the index in the list of its day. -/
theorem clientBatch_effect (U : List Task) (board : Board)
    (hnodup : (U.map Task.id).Nodup)
    (hdays : ∀ t ∈ U, ∃ d : Fin 7, t.day = ((d : ℕ) : ℚ))
    (hboard : ∀ d : Fin 7, (board d).Perm (U.filter (fun t => t.day = ((d : ℕ) : ℚ))))
    (d : Fin 7) (i : ℕ) (t : Task) (hget : (board d)[i]? = some t) :
    (applyBatch ((getAllTasks (normalizeBoard board)).map (fun task : Task =>
        Json.obj [("id", .str task.id), ("day", .num task.day),
          ("position", .num task.position)])) t).day = t.day
    ∧ (applyBatch ((getAllTasks (normalizeBoard board)).map (fun task : Task =>
        Json.obj [("id", .str task.id), ("day", .num task.day),
          ("position", .num task.position)])) t).position = (i : ℚ) := by
  have htU := (hboard d).mem_iff.1 (List.getElem?_mem hget)
  rw [List.mem_filter] at htU
  have hday : t.day = ((d : ℕ) : ℚ) := by simpa using htU.2
  have hnd : ((getAllTasks (normalizeBoard board)).map Task.id).Nodup := by
    rw [getAllTasks_normalizeBoard_ids]
    exact ((getAllTasks_perm U board hdays hboard).map Task.id).nodup_iff.2 hnodup
  have hx : ({ t with position := (i : ℚ) } : Task) ∈ getAllTasks (normalizeBoard board) := by
    rw [mem_getAllTasks]
    refine ⟨d, ?_⟩
    have h := getElem?_renumberFrom 0 (board d) i
    rw [hget] at h
    simp only [Option.map_some', Nat.zero_add] at h
    exact List.getElem?_mem h
  have hd6 : ((d : ℕ) : ℚ) ≤ 6 := by
    have : (d : ℕ) ≤ 6 := by omega
    exact_mod_cast this
  have h := applyBatch_clientBatch _ hnd { t with position := (i : ℚ) } t hx rfl
    (by rw [show ({ t with position := (i : ℚ) } : Task).day = t.day from rfl, hday]
        exact Nat.cast_nonneg _)
    (by rw [show ({ t with position := (i : ℚ) } : Task).day = t.day from rfl, hday]
        exact hd6)
    (Nat.cast_nonneg i)
  exact h

/-- The positions the batch of `persistReorder` gives to the tasks of one day list. -/
theorem clientBatch_positions (U : List Task) (board : Board)
    (hnodup : (U.map Task.id).Nodup)
    (hdays : ∀ t ∈ U, ∃ d : Fin 7, t.day = ((d : ℕ) : ℚ))
    (hboard : ∀ d : Fin 7, (board d).Perm (U.filter (fun t => t.day = ((d : ℕ) : ℚ))))
    (d : Fin 7) :
    ((board d).map (applyBatch ((getAllTasks (normalizeBoard board)).map (fun task : Task =>
        Json.obj [("id", .str task.id), ("day", .num task.day),
          ("position", .num task.position)])))).map Task.position
      = (List.range (board d).length).map (fun i : ℕ => (i : ℚ)) := by
  apply List.ext_getElem?
  intro i
  rw [List.getElem?_map, List.getElem?_map, List.getElem?_map]
  cases hget : (board d)[i]? with
  | none =>
    rw [List.getElem?_eq_none_iff] at hget
    rw [List.getElem?_eq_none_iff.2 (by rw [List.length_range]; exact hget)]
    rfl
  | some t =>
    have hlt : i < (board d).length := by
      by_contra hc
      rw [List.getElem?_eq_none_iff.2 (Nat.le_of_not_lt hc)] at hget
      exact Option.noConfusion hget
    rw [List.getElem?_range hlt]
    simp only [Option.map_some']
    rw [(clientBatch_effect U board hnodup hdays hboard d i t hget).2]

/-- The bucket of a user after a map that keeps owner and day of the tasks of the user. -/
theorem bucket_map (l : List Task) (uid : String) (G : Task → Task) (q : ℚ)
    (huser : ∀ t, (G t).userId = t.userId)
    (hday : ∀ t ∈ l, t.userId = uid → (G t).day = t.day) :
    (l.map (fun t => if t.userId = uid then G t else t)).filter
        (fun task => task.userId = uid ∧ task.day = q)
      = ((l.filter (fun t => t.userId = uid)).filter (fun t => t.day = q)).map G := by
  induction l with
  | nil => rfl
  | cons t rest ih =>
    have ih2 := ih (fun x hx => hday x (List.mem_cons_of_mem t hx))
    rw [List.map_cons, List.filter_cons, ih2]
    by_cases ht : t.userId = uid
    · have hd := hday t (List.mem_cons_self t rest) ht
      by_cases hq : t.day = q
      · simp [List.filter_cons, ht, hq, huser, hd]
      · simp [List.filter_cons, ht, hq, huser, hd]
    · simp [List.filter_cons, ht]

/-- C18: the batch that `persistReorder` builds after `normalizeBoard` restores invariant I1 on
the server.  For an authenticated user whose stored tasks have pairwise distinct ids and an
integer day between 0 and 6, and a client board that holds exactly these tasks, each in the
list of its day, `handleReorderTasks` on that batch answers 200 and leaves a store in which,
for every day, the positions of the tasks of the user are exactly 0..n-1. -/
theorem persistReorder_restores_gapFree (R : Runtime) (env : Env) (db : Database)
    (req : Request) (user : User) (board : Board)
    (hauth : authenticateRequest R env.now db req.authorization = .ok user)
    (hbody : parseJsonBody R req.data = .ok (persistReorderPayload (normalizeBoard board)))
    (hnodup : ((db.tasks.filter (fun t => t.userId = user.id)).map Task.id).Nodup)
    (hdays : ∀ t ∈ db.tasks.filter (fun t => t.userId = user.id),
      ∃ d : Fin 7, t.day = ((d : ℕ) : ℚ))
    (hboard : ∀ d : Fin 7, (board d).Perm
      ((db.tasks.filter (fun t => t.userId = user.id)).filter
        (fun t => t.day = ((d : ℕ) : ℚ)))) :
    (handleReorderTasks R env db req).reply = .json 200 (.obj [("success", .bool true)])
    ∧ ∀ day : ℚ, bucketGapFree (handleReorderTasks R env db req).db user.id day := by
  have heq := handleReorderTasks_eq R env db req user _
    ((getAllTasks (normalizeBoard board)).map (fun task : Task =>
      Json.obj [("id", .str task.id), ("day", .num task.day),
        ("position", .num task.position)])) hauth hbody rfl
  have hnonull : ¬ ((getAllTasks (normalizeBoard board)).map (fun task : Task =>
      Json.obj [("id", .str task.id), ("day", .num task.day),
        ("position", .num task.position)])).any Json.isNull = true := by
    simp [List.any_eq_true, Json.isNull]
  rw [if_neg hnonull] at heq
  rw [heq]
  refine ⟨rfl, fun day => ?_⟩
  have hG : ∀ t ∈ db.tasks, t.userId = user.id →
      (applyBatch ((getAllTasks (normalizeBoard board)).map (fun task : Task =>
        Json.obj [("id", .str task.id), ("day", .num task.day),
          ("position", .num task.position)])) t).day = t.day := by
    intro t ht hu
    have htU : t ∈ db.tasks.filter (fun t => t.userId = user.id) :=
      List.mem_filter.2 ⟨ht, by simpa using hu⟩
    obtain ⟨d, hd⟩ := hdays t htU
    have htb : t ∈ board d :=
      (hboard d).mem_iff.2 (List.mem_filter.2 ⟨htU, by simpa using hd⟩)
    obtain ⟨i, hi⟩ := List.mem_iff_getElem?.1 htb
    exact (clientBatch_effect _ board hnodup hdays hboard d i t hi).1
  have hbucket := bucket_map db.tasks user.id _ day
    (fun t => (applyBatch_frame _ t).2.1) hG
  unfold bucketGapFree bucket
  simp only
  rw [reorderedTasks_of_nodup user.id _ db.tasks hnodup, hbucket]
  by_cases hday : ∃ d : Fin 7, day = ((d : ℕ) : ℚ)
  · obtain ⟨d, rfl⟩ := hday
    rw [List.length_map, ← (hboard d).length_eq,
      ← clientBatch_positions _ board hnodup hdays hboard d]
    exact (((hboard d).symm.map _).map _)
  · have hempty : (db.tasks.filter (fun t => t.userId = user.id)).filter
        (fun t => decide (t.day = day)) = [] := by
      rw [List.filter_eq_nil_iff]
      intro t ht hc
      obtain ⟨d, hd⟩ := hdays t ht
      exact hday ⟨d, by rw [← hd]; exact (of_decide_eq_true hc).symm⟩
    rw [hempty]
    exact List.Perm.refl _

theorem persistReorder_restores_gapFree_witness :
    authenticateRequest demoRuntime demoEnv.now demoGapDb demoPersistRequest.authorization
      = .ok demoUser
    ∧ parseJsonBody demoRuntime demoPersistRequest.data
      = .ok (persistReorderPayload (normalizeBoard demoGapBoard))
    ∧ ¬ bucketGapFree demoGapDb demoUser.id 1
    ∧ (handleReorderTasks demoRuntime demoEnv demoGapDb demoPersistRequest).db.tasks.map
        (fun t => (t.id, t.position)) = [("a", 1), ("x", 0), ("b", 0)]
    ∧ (handleReorderTasks demoRuntime demoEnv demoGapDb demoPersistRequest).reply
        = .json 200 (.obj [("success", .bool true)])
    ∧ ∀ day : ℚ,
        bucketGapFree (handleReorderTasks demoRuntime demoEnv demoGapDb demoPersistRequest).db
          demoUser.id day :=
  ⟨by decide!, by decide!, by unfold bucketGapFree; decide!, by decide!,
    persistReorder_restores_gapFree demoRuntime demoEnv demoGapDb demoPersistRequest demoUser
      demoGapBoard (by decide!) (by decide!) (by decide!) (by decide!) (by decide!)⟩

end PlanIt
